import Mathlib

/-!
Shallow embedding of the timetable-conversion engine of
`pdf_timetable2json` (files `src/app/csv_parser.py` and
`src/app/formatters.py`).

A grid is a list of rows, each row a list of string cells (the pandas
DataFrame read with `keep_default_na=False`, under which structurally
missing cells surface as the literal string "nan").  All text handling
is done at the level of `List Char`, matching Python's treatment of a
`str` as a sequence of characters.
-/

set_option maxHeartbeats 1000000

namespace Engine

/-- Python `str.strip()` on one side: drop leading whitespace. -/
def dropWs (cs : List Char) : List Char := cs.dropWhile Char.isWhitespace

/-- Python `str.strip()`: drop leading and trailing whitespace. -/
def trimChars (cs : List Char) : List Char :=
  ((cs.dropWhile Char.isWhitespace).reverse.dropWhile Char.isWhitespace).reverse

/-- Python `s.split(sep)` for a one-character separator (as in
`cell_value.split('\n')`): split into all fields, keeping empties. -/
def splitOnChar (sep : Char) : List Char → List (List Char)
  | [] => [[]]
  | c :: cs =>
    if c = sep then [] :: splitOnChar sep cs
    else
      match splitOnChar sep cs with
      | [] => [[c]]
      | p :: ps => (c :: p) :: ps

/-- Python `s.replace(pat, '')` (all non-overlapping occurrences,
scanned left to right), as used for stripping the class-teacher
marker. -/
def removeAllGo : Nat → List Char → List Char → List Char
  | 0, cs, _ => cs
  | _, [], _ => []
  | f + 1, c :: rest, pat =>
    if pat ≠ [] ∧ pat <+: (c :: rest) then
      removeAllGo f ((c :: rest).drop pat.length) pat
    else c :: removeAllGo f rest pat

def removeAll (cs pat : List Char) : List Char := removeAllGo cs.length cs pat

/-- Python `pat in s` (substring containment). -/
def isInfx (pat cs : List Char) : Bool := decide (pat <:+: cs)

/-- `str(row.iloc[i]).strip()`: the trimmed cell at column `i`
(out-of-range access yields the empty string). -/
def cellAt (row : List String) (i : Nat) : List Char :=
  trimChars (row.getD i "").data

/-- A cell counts as empty when its trimmed text is `''` or the
pandas artifact `'nan'` (`if not cell_value or cell_value == '' or
cell_value == 'nan'`). -/
def isEmptyCell (cs : List Char) : Bool := cs = [] || cs = "nan".data

/-- `CSVParser.WEEKDAYS`. -/
def WEEKDAYS : List String := ["星期一", "星期二", "星期三", "星期四", "星期五"]

/-- `CSVParser.WEEKDAY_EN_MAP`. -/
def WEEKDAY_EN_MAP : List (String × String) :=
  [("星期一", "monday"), ("星期二", "tuesday"), ("星期三", "wednesday"),
   ("星期四", "thursday"), ("星期五", "friday")]

/-- `CSVParser.PERIODS_PER_DAY`. -/
def PERIODS_PER_DAY : Nat := 9

/-- One lesson record as produced by `_parse_cell`
(`{'period': …, 'course': …, 'teacher': …, 'is_class_teacher': …}`). -/
structure Lesson where
  period : Nat
  course : List Char
  teacher : Option (List Char)
  is_class_teacher : Bool
deriving DecidableEq, Repr

/-- The `班会` activity marker. -/
def banhui : List Char := "班会".data

/-- The `阳光体育` activity marker. -/
def yangguang : List Char := "阳光体育".data

/-- Fullwidth class-teacher marker `（班）`. -/
def markerFull : List Char := "（班）".data

/-- Halfwidth class-teacher marker `(班)`. -/
def markerHalf : List Char := "(班)".data

/-- `CSVParser._parse_cell`: interpret one trimmed cell string at a
tentative period. -/
def parseCell (cellValue : List Char) (period : Nat) : Option Lesson :=
  if isInfx banhui cellValue then
    some ⟨period, banhui, none, false⟩
  else if isInfx yangguang cellValue then
    some ⟨period, yangguang, none, false⟩
  else
    let parts := splitOnChar '\n' cellValue
    let course := trimChars (parts.getD 0 [])
    let teacher? : Option (List Char) :=
      if 1 < parts.length then some (trimChars (parts.getD 1 [])) else none
    if course = [] then none
    else
      match teacher? with
      | none => some ⟨period, course, none, false⟩
      | some t =>
        if t = [] then some ⟨period, course, some t, false⟩
        else if isInfx markerFull t then
          some ⟨period, course, some (removeAll t markerFull), true⟩
        else if isInfx markerHalf t then
          some ⟨period, course, some (removeAll t markerHalf), true⟩
        else some ⟨period, course, some t, false⟩

/-- Helper for the Python regex `^(.+)\1$`: does `cs` consist of two
equal newline-free halves?  (`.` does not match `'\n'`, and the
backreference forces the group to be exactly the first half.) -/
def halvesRep (cs : List Char) : Option (List Char) :=
  if 2 ≤ cs.length ∧ cs.length % 2 = 0 then
    if cs = cs.take (cs.length / 2) ++ cs.take (cs.length / 2) ∧
        '\n' ∉ cs.take (cs.length / 2) then
      some (cs.take (cs.length / 2))
    else none
  else none

/-- Full-match semantics of `re.match(r'^(.+)\1$', course)`:
`$` matches at the end of the string or just before a newline at the
end of the string, so the pattern accepts `g ++ g` and also
`g ++ g ++ "\n"` for a nonempty newline-free group `g`. -/
def repMatch (cs : List Char) : Option (List Char) :=
  match halvesRep cs, cs.getLast? with
  | some g, _ => some g
  | none, some c => if c = '\n' then halvesRep cs.dropLast else none
  | none, none => none

/-- `CSVParser._detect_and_split_duplicate_course`. -/
def detectAndSplitDuplicateCourse (course : List Char) :
    Option (List Char × List Char) :=
  if course.length < 2 then none
  else
    match repMatch course with
    | some g => some (g, g)
    | none => none

/-- The split pre-check of `_parse_class_schedule` (lines 251-271):
period `p+1` must still be a valid period whose in-range cell is
empty, and the tentatively parsed course of the current cell must show
the self-repetition pattern. -/
def splitCheck (row : List String) (dataStart maxCols period : Nat)
    (cellValue : List Char) : Option (List Char × List Char) :=
  let nextPeriod := period + 1
  if nextPeriod ≤ PERIODS_PER_DAY then
    let nextColIdx := dataStart + nextPeriod - 1
    if nextColIdx < maxCols ∧ nextColIdx < row.length then
      if isEmptyCell (cellAt row nextColIdx) then
        match parseCell cellValue period with
        | some tmp => detectAndSplitDuplicateCourse tmp.course
        | none => none
      else none
    else none
  else none

/-- The period loop of `_parse_class_schedule` for one weekday
(`for period in range(1, PERIODS_PER_DAY + 1)`), with fuel counting
the remaining loop iterations and `processed` the set of periods
already consumed by a split. -/
def scheduleGo (row : List String) (dataStart maxCols : Nat) :
    Nat → Nat → List Nat → List Lesson
  | 0, _, _ => []
  | f + 1, period, processed =>
    if period ∈ processed then
      scheduleGo row dataStart maxCols f (period + 1) processed
    else
      let colIdx := dataStart + period - 1
      if maxCols ≤ colIdx ∨ row.length ≤ colIdx then []
      else
        let cellValue := cellAt row colIdx
        if isEmptyCell cellValue then
          scheduleGo row dataStart maxCols f (period + 1) processed
        else
          match splitCheck row dataStart maxCols period cellValue,
                parseCell cellValue period with
          | some (c1, c2), some tmp =>
            ⟨period, c1, tmp.teacher, tmp.is_class_teacher⟩ ::
            ⟨period + 1, c2, tmp.teacher, tmp.is_class_teacher⟩ ::
            scheduleGo row dataStart maxCols f (period + 1)
              ((period + 1) :: period :: processed)
          | some _, none =>
            scheduleGo row dataStart maxCols f (period + 1) processed
          | none, some pd =>
            pd :: scheduleGo row dataStart maxCols f (period + 1)
              (period :: processed)
          | none, none =>
            scheduleGo row dataStart maxCols f (period + 1) processed

/-- Association-list lookup used for the Python dicts keyed by
weekday name or class name. -/
def lookupKey {α : Type} (d : List (String × α)) (k : String) : Option α :=
  (d.find? (fun p => p.1 = k)).map (fun p => p.2)

/-- One weekday of `_parse_class_schedule`: empty when the weekday has
no column range, otherwise the 9-period column walk starting at the
weekday's start column with `max_cols = min(start+9, end_col,
len(row))`. -/
def parseWeekday (row : List String) (ranges : List (String × (Nat × Nat)))
    (weekday : String) : List Lesson :=
  match lookupKey ranges weekday with
  | none => []
  | some (startCol, endCol) =>
    let dataStart := startCol
    let maxCols := min (min (dataStart + PERIODS_PER_DAY) endCol) row.length
    scheduleGo row dataStart maxCols PERIODS_PER_DAY 1 []

/-- `CSVParser._parse_class_schedule`: a dict with one entry per
weekday, in `WEEKDAYS` order. -/
def parseClassSchedule (row : List String)
    (ranges : List (String × (Nat × Nat))) :
    List (String × List Lesson) :=
  WEEKDAYS.map (fun w => (w, parseWeekday row ranges w))

/-- First column of the header whose text contains the weekday name
(`for col_idx in range(len(header_row)): … if weekday in cell: …`). -/
def firstCol (header : List String) (weekday : String) : Option Nat :=
  (List.range header.length).find?
    (fun i => isInfx weekday.data (header.getD i "").data)

/-- `CSVParser._find_weekday_start_columns`: dict from weekday name to
the first column where it appears, built in `WEEKDAYS` order. -/
def findWeekdayStartColumns (header : List String) : List (String × Nat) :=
  WEEKDAYS.filterMap (fun w => (firstCol header w).map (fun i => (w, i)))

/-- Inner recursion of `_calculate_weekday_ranges`: walk the weekday
list in order; for each present weekday the end column is the start
column of the next present weekday (`for j in range(i+1, …): …
break`), defaulting to the total column count. -/
def calcRangesGo (starts : List (String × Nat)) (total : Nat) :
    List String → List (String × (Nat × Nat))
  | [] => []
  | w :: rest =>
    match lookupKey starts w with
    | none => calcRangesGo starts total rest
    | some s =>
      let e := ((rest.findSome? (lookupKey starts)).getD total)
      (w, (s, e)) :: calcRangesGo starts total rest

/-- `CSVParser._calculate_weekday_ranges`. -/
def calculateWeekdayRanges (starts : List (String × Nat)) (total : Nat) :
    List (String × (Nat × Nat)) :=
  calcRangesGo starts total WEEKDAYS

/-- Characters accepted by the regex class `[一二三四五六七八九十\d]`. -/
def isCnNum (c : Char) : Bool :=
  c ∈ ['一', '二', '三', '四', '五', '六', '七', '八', '九', '十'] || c.isDigit

/-- Characters accepted by the regex class `[\.·]`. -/
def isSepChar (c : Char) : Bool := c = '.' || c = '·'

/-- Matches `\d+班` as a prefix of `cs` (a maximal nonempty digit run
followed by the literal `班`). -/
def digitsThenBan (cs : List Char) : Bool :=
  let ds := cs.takeWhile Char.isDigit
  decide (ds ≠ []) && ((cs.drop ds.length).headD ' ' = '班')

/-- After the grade character: `[一二三四五六七八九十\d]+[\.·]?\d+班` as a
prefix, with the backtracking of the `+` made explicit as a search
over the length of the first group. -/
def patternAfterGrade (cs : List Char) : Bool :=
  (List.range cs.length).any (fun k0 =>
    let k := k0 + 1
    (cs.take k).all isCnNum &&
      (let rest := cs.drop k
       digitsThenBan rest ||
         (match rest with
          | c :: rest2 => isSepChar c && digitsThenBan rest2
          | [] => false)))

/-- `re.match(r'^[初高][一二三四五六七八九十\d]+[\.·]?\d+班', s)`. -/
def classPattern (s : List Char) : Bool :=
  match s with
  | c :: rest => (c = '初' || c = '高') && patternAfterGrade rest
  | [] => false

/-- After the grade character, the simple variant (no separator):
`[一二三四五六七八九十\d]+\d+班` as a prefix. -/
def patternAfterGradeSimple (cs : List Char) : Bool :=
  (List.range cs.length).any (fun k0 =>
    let k := k0 + 1
    (cs.take k).all isCnNum && digitsThenBan (cs.drop k))

/-- `re.match(r'^[初高][一二三四五六七八九十\d]+\d+班', s)`. -/
def classPatternSimple (s : List Char) : Bool :=
  match s with
  | c :: rest => (c = '初' || c = '高') && patternAfterGradeSimple rest
  | [] => false

/-- `CSVParser._is_class_row`: the first cell (already trimmed) must be
nonempty and not `'nan'`; then either naming pattern, or the fallback
that some of columns 1..9 holds non-empty text. -/
def isClassRow (row : List String) (firstCell : List Char) : Bool :=
  if firstCell = [] || firstCell = "nan".data then false
  else if classPattern firstCell then true
  else if classPatternSimple firstCell then true
  else if 1 < row.length then
    (List.range (min row.length 10 - 1)).any
      (fun k => !isEmptyCell (cellAt row (k + 1)))
  else false

/-- `str(row.iloc[0]).strip() if len(row) > 0 else ''`. -/
def classNameOf (row : List String) : List Char := cellAt row 0

/-- Python dict assignment `d[k] = v`: replace the value in place if
the key is present, else append the new pair. -/
def dictInsert {α : Type} (d : List (String × α)) (k : String) (v : α) :
    List (String × α) :=
  if d.any (fun p => p.1 = k) then
    d.map (fun p => if p.1 = k then (k, v) else p)
  else d ++ [(k, v)]

/-- A class schedule: Python dict from weekday name to lesson list. -/
abbrev ClassSchedule := List (String × List Lesson)

/-- The timetable: Python dict from class name to class schedule. -/
abbrev Timetable := List (String × ClassSchedule)

/-- `String.mk` of the trimmed first cell, used as the dict key
`class_name`. -/
def classKey (row : List String) : String := String.mk (classNameOf row)

/-- The row loop of `parse_to_json` (`for row_idx in range(2,
len(df))`): classify each data row and store its parsed schedule under
its class name. -/
def buildTimetable (grid : List (List String))
    (ranges : List (String × (Nat × Nat))) : Timetable :=
  (grid.drop 2).foldl
    (fun acc row =>
      if isClassRow row (classNameOf row) then
        dictInsert acc (classKey row) (parseClassSchedule row ranges)
      else acc)
    []

/-- The two abort kinds of the conversion (spec section 7): the code
signals both by returning `None`; the spec distinguishes them as
`ShapeError` and `NoWeekdayFoundError`. -/
inductive ParseError where
  | shapeError
  | noWeekdayFound
deriving DecidableEq, Repr

/-- `CSVParser.parse_to_json` on an already-loaded grid: fewer than 3
rows aborts; a header with no weekday anchor aborts; otherwise the
timetable is assembled row by row. -/
def parseToJson (grid : List (List String)) : Except ParseError Timetable :=
  if grid.length < 3 then .error .shapeError
  else
    let headerRow := grid.getD 0 []
    let starts := findWeekdayStartColumns headerRow
    if starts.isEmpty then .error .noWeekdayFound
    else
      .ok (buildTimetable grid (calculateWeekdayRanges starts headerRow.length))

/-- `{'total_classes': …, 'total_periods': …}`. -/
structure Statistics where
  total_classes : Nat
  total_periods : Nat
deriving DecidableEq, Repr

/-- `CSVParser.get_statistics`. -/
def getStatistics (tt : Timetable) : Statistics :=
  ⟨tt.length,
   (tt.map (fun c => (c.2.map (fun w => w.2.length)).sum)).sum⟩

/-- Boolean lexicographic strict order on character lists (Python's
`<` on `str`, comparing code points). -/
def lexLt : List Char → List Char → Bool
  | [], [] => false
  | [], _ :: _ => true
  | _ :: _, [] => false
  | a :: as, b :: bs => if a < b then true else if b < a then false else lexLt as bs

/-- Stable insertion of a class entry into a name-sorted list: walk
past strictly smaller names, so an earlier entry stays before an equal
name. -/
def orderedInsertByName (p : String × ClassSchedule) :
    List (String × ClassSchedule) → List (String × ClassSchedule)
  | [] => [p]
  | q :: rest =>
    if lexLt q.1.data p.1.data then q :: orderedInsertByName p rest
    else p :: q :: rest

/-- `sorted(timetable.items())`: stable ascending sort of the class
entries by class name (Python compares strings lexicographically by
code point). -/
def sortedByKey (tt : Timetable) : Timetable :=
  tt.foldr orderedInsertByName []

/-- `format_timetable` from `formatters.py`: per class (in sorted
order), keep each weekday that is a key of its schedule, renamed to
English via `WEEKDAY_EN_MAP`. -/
def formatTimetable (tt : Timetable) : List (String × List (String × List Lesson)) :=
  (sortedByKey tt).map (fun c =>
    (c.1,
     WEEKDAYS.filterMap (fun w =>
       match lookupKey c.2 w with
       | some lessons => some ((lookupKey WEEKDAY_EN_MAP w).getD w, lessons)
       | none => none)))

/-- Replacement of a `'nan'` cell by an empty cell (used to state that
the pandas `'nan'` artifact is treated exactly like an empty cell). -/
def nanToEmpty (cell : String) : String :=
  if trimChars cell.data = "nan".data then "" else cell

/-- Apply `nanToEmpty` to every cell of a row. -/
def replaceNanRow (row : List String) : List String := row.map nanToEmpty

/-- Apply `nanToEmpty` to every cell of a grid. -/
def replaceNanGrid (grid : List (List String)) : List (List String) :=
  grid.map replaceNanRow

/-- The data rows that pass row classification, in grid order. -/
def classRows (grid : List (List String)) : List (List String) :=
  (grid.drop 2).filter (fun r => isClassRow r (classNameOf r))

/-- A concrete grid with two weekday anchors, used by witnesses. -/
def gridA : List (List String) :=
  [["班级", "星期一", "", "", "星期二", ""],
   ["", "1", "2", "3", "1", "2"],
   ["初三.1班", "英语\n陈小华（班）", "数学\n王伟", "", "选修课选修课", ""]]

/-- A concrete grid whose header anchors only Monday. -/
def gridB : List (List String) :=
  [["班级", "星期一", ""],
   ["", "1", "2"],
   ["初三.1班", "语文\n张", "数学\n王"]]

/-- A concrete grid with two class rows carrying the same class name. -/
def gridC : List (List String) :=
  [["班级", "星期一", ""],
   ["", "1", "2"],
   ["初三.1班", "语文\n张", ""],
   ["初三.2班", "数学\n王", ""],
   ["初三.1班", "英语\n李", ""]]

/-- A concrete grid containing `'nan'` artifacts. -/
def gridN : List (List String) :=
  [["班级", "星期一", "nan", ""],
   ["nan", "1", "2", "3"],
   ["初三.1班", "选修课选修课", "nan", "体育\n王"],
   ["nan", "nan", "nan", "nan"]]

/-! ### Basic lemmas about the column scan -/

theorem find?_range_eq_some {p : Nat → Bool} {n i : Nat} :
    (List.range n).find? p = some i ↔
      (i < n ∧ p i = true ∧ ∀ j, j < i → p j = false) := by
  induction n generalizing i with
  | zero => simp
  | succ n ih =>
    rw [List.range_succ, List.find?_append]
    cases h : (List.range n).find? p with
    | some j =>
      obtain ⟨hj, hpj, hbelow⟩ := (ih (i := j)).mp h
      simp only [Option.or_some, Option.some.injEq]
      constructor
      · rintro rfl
        exact ⟨by omega, hpj, hbelow⟩
      · rintro ⟨hi, hpi, hbelowi⟩
        rcases Nat.lt_trichotomy i j with hlt | rfl | hgt
        · exact absurd hpi (by simpa using hbelow i hlt)
        · rfl
        · exact absurd hpj (by simpa using hbelowi j hgt)
    | none =>
      have hall : ∀ j, j < n → p j = false := by
        intro j hj
        have := List.find?_eq_none.mp h j (List.mem_range.mpr hj)
        simpa using this
      simp only [Option.none_or]
      constructor
      · intro hfind
        rcases hpn : p n with hF | hT
        · simp [List.find?, hpn] at hfind
        · simp only [List.find?, hpn, Option.some.injEq] at hfind
          subst hfind
          exact ⟨Nat.lt_succ_self n, hpn, hall⟩
      · rintro ⟨hi, hpi, _⟩
        have hin : i = n := by
          rcases Nat.lt_or_ge i n with hlt | hge
          · exact absurd hpi (by simp [hall i hlt])
          · omega
        subst hin
        simp [List.find?, hpi]

theorem find?_range_eq_none {p : Nat → Bool} {n : Nat} :
    (List.range n).find? p = none ↔ ∀ j, j < n → p j = false := by
  rw [List.find?_eq_none]
  constructor
  · intro h j hj
    simpa using h j (List.mem_range.mpr hj)
  · intro h j hj
    simp [h j (List.mem_range.mp hj)]

theorem firstCol_eq_some {header : List String} {w : String} {i : Nat} :
    firstCol header w = some i ↔
      (i < header.length ∧ isInfx w.data ((header.getD i "")).data = true ∧
       ∀ j, j < i → isInfx w.data ((header.getD j "")).data = false) :=
  find?_range_eq_some

theorem firstCol_eq_none {header : List String} {w : String} :
    firstCol header w = none ↔
      ∀ j, j < header.length → isInfx w.data ((header.getD j "")).data = false :=
  find?_range_eq_none

/-! ### Lookup in the weekday-start dict -/

theorem lookupKey_filterMap_of_not_mem {α : Type} {ws : List String}
    {f : String → Option α} {w : String} (hw : w ∉ ws) :
    lookupKey (ws.filterMap (fun x => (f x).map (fun v => (x, v)))) w = none := by
  induction ws with
  | nil => rfl
  | cons x rest ih =>
    have hxw : x ≠ w := fun h => hw (h ▸ List.mem_cons_self x rest)
    have hwrest : w ∉ rest := fun h => hw (List.mem_cons_of_mem x h)
    cases hfx : f x with
    | none => simpa [List.filterMap_cons, hfx] using ih hwrest
    | some v =>
      simp only [List.filterMap_cons, hfx, Option.map_some']
      simpa [lookupKey, List.find?, hxw] using ih hwrest

theorem lookupKey_filterMap {α : Type} {ws : List String}
    {f : String → Option α} {w : String} (hnd : ws.Nodup) (hw : w ∈ ws) :
    lookupKey (ws.filterMap (fun x => (f x).map (fun v => (x, v)))) w = f w := by
  induction ws with
  | nil => cases hw
  | cons x rest ih =>
    rcases List.mem_cons.mp hw with rfl | hmem
    · have hnotin : w ∉ rest := (List.nodup_cons.mp hnd).1
      cases hfx : f w with
      | none =>
        simpa [List.filterMap_cons, hfx] using lookupKey_filterMap_of_not_mem hnotin
      | some v => simp [List.filterMap_cons, hfx, lookupKey, List.find?]
    · have hxw : x ≠ w := by
        rintro rfl
        exact (List.nodup_cons.mp hnd).1 hmem
      cases hfx : f x with
      | none =>
        simpa [List.filterMap_cons, hfx] using ih (List.nodup_cons.mp hnd).2 hmem
      | some v =>
        simp only [List.filterMap_cons, hfx, Option.map_some']
        simpa [lookupKey, List.find?, hxw] using ih (List.nodup_cons.mp hnd).2 hmem

theorem weekdays_nodup : WEEKDAYS.Nodup := by decide

theorem lookupKey_starts {header : List String} {w : String} (hw : w ∈ WEEKDAYS) :
    lookupKey (findWeekdayStartColumns header) w = firstCol header w :=
  lookupKey_filterMap weekdays_nodup hw

theorem findWeekdayStartColumns_eq_nil {header : List String} :
    findWeekdayStartColumns header = [] ↔
      ∀ w ∈ WEEKDAYS, firstCol header w = none := by
  unfold findWeekdayStartColumns
  rw [List.filterMap_eq_nil_iff]
  constructor
  · intro h w hw
    have := h w hw
    exact Option.map_eq_none'.mp this
  · intro h w hw
    simp [h w hw]

/-! ### C6: shape failure -/

/-- C6: a grid with fewer than 3 rows fails with the shape failure and
produces no timetable; with 3 or more rows that failure never occurs. -/
theorem C6_shape_error (grid : List (List String)) :
    (grid.length < 3 → parseToJson grid = .error .shapeError) ∧
    (3 ≤ grid.length → parseToJson grid ≠ .error .shapeError) := by
  constructor
  · intro h
    simp [parseToJson, h]
  · intro h hcontra
    simp only [parseToJson] at hcontra
    rw [if_neg (by omega)] at hcontra
    split at hcontra <;> simp_all

/-- Witness for C6 at concrete grids. -/
theorem C6_shape_error_witness :
    parseToJson [] = .error .shapeError ∧
    parseToJson [[""], [""], [""]] ≠ .error .shapeError :=
  ⟨(C6_shape_error []).1 (by decide),
   (C6_shape_error [[""], [""], [""]]).2 (by decide)⟩

/-! ### C7: no-weekday failure -/

/-- C7: with at least 3 rows, a header containing no weekday name as a
substring of any cell fails with the no-weekday failure; if some
weekday name occurs in the header, that failure never occurs. -/
theorem C7_no_weekday (grid : List (List String)) (h3 : 3 ≤ grid.length) :
    ((∀ w ∈ WEEKDAYS, ∀ j, j < (grid.getD 0 []).length →
        isInfx w.data (((grid.getD 0 []).getD j "")).data = false) →
      parseToJson grid = .error .noWeekdayFound) ∧
    ((∃ w ∈ WEEKDAYS, ∃ j, j < (grid.getD 0 []).length ∧
        isInfx w.data (((grid.getD 0 []).getD j "")).data = true) →
      parseToJson grid ≠ .error .noWeekdayFound) := by
  constructor
  · intro hnone
    have hempty : findWeekdayStartColumns (grid.getD 0 []) = [] :=
      findWeekdayStartColumns_eq_nil.mpr
        (fun w hw => firstCol_eq_none.mpr (hnone w hw))
    simp only [List.getD_eq_getElem?_getD] at hempty
    simp [parseToJson, if_neg (by omega : ¬ grid.length < 3), hempty]
  · rintro ⟨w, hw, j, hj, hinf⟩ hcontra
    simp only [parseToJson] at hcontra
    rw [if_neg (by omega)] at hcontra
    split at hcontra
    · rename_i hempty
      have hnil : findWeekdayStartColumns (grid.getD 0 []) = [] :=
        List.isEmpty_iff.mp hempty
      have := firstCol_eq_none.mp
        (findWeekdayStartColumns_eq_nil.mp hnil w hw) j hj
      rw [this] at hinf
      cases hinf
    · cases hcontra

/-- Witness for C7 at concrete grids. -/
theorem C7_no_weekday_witness :
    parseToJson [["a", "b"], [""], [""]] = .error .noWeekdayFound ∧
    parseToJson [["星期一"], [""], [""]] ≠ .error .noWeekdayFound :=
  ⟨(C7_no_weekday [["a", "b"], [""], [""]] (by decide)).1 (by decide),
   (C7_no_weekday [["星期一"], [""], [""]] (by decide)).2 (by decide)⟩

/-! ### C3: class-teacher marker -/

/-- C3: for every parsed cell producing a lesson with a non-null
teacher: if the raw teacher text (second line of the cell, trimmed)
contains a class-teacher marker variant, the lesson is marked
`is_class_teacher = true` and its teacher is that text with the
matched marker variant removed (the fullwidth variant is checked
first); otherwise `is_class_teacher = false` and the teacher text is
unchanged. -/
theorem C3_class_teacher_marker (cellValue : List Char) (period : Nat)
    (l : Lesson) (hparse : parseCell cellValue period = some l)
    (hteacher : l.teacher ≠ none) :
    (isInfx markerFull (trimChars ((splitOnChar '\n' cellValue).getD 1 [])) = true →
       l.is_class_teacher = true ∧
       l.teacher = some (removeAll
         (trimChars ((splitOnChar '\n' cellValue).getD 1 [])) markerFull)) ∧
    (isInfx markerFull (trimChars ((splitOnChar '\n' cellValue).getD 1 [])) = false →
     isInfx markerHalf (trimChars ((splitOnChar '\n' cellValue).getD 1 [])) = true →
       l.is_class_teacher = true ∧
       l.teacher = some (removeAll
         (trimChars ((splitOnChar '\n' cellValue).getD 1 [])) markerHalf)) ∧
    (isInfx markerFull (trimChars ((splitOnChar '\n' cellValue).getD 1 [])) = false →
     isInfx markerHalf (trimChars ((splitOnChar '\n' cellValue).getD 1 [])) = false →
       l.is_class_teacher = false ∧
       l.teacher = some (trimChars ((splitOnChar '\n' cellValue).getD 1 []))) := by
  simp only [parseCell] at hparse
  split at hparse
  · cases hparse; simp at hteacher
  · split at hparse
    · cases hparse; simp at hteacher
    · split at hparse
      · cases hparse
      · -- the match on the optional teacher
        split at hparse
        · -- no second line: teacher is none
          cases hparse; simp at hteacher
        · rename_i t heq
          have ht : t = trimChars ((splitOnChar '\n' cellValue).getD 1 []) := by
            by_cases hlen : 1 < (splitOnChar '\n' cellValue).length
            · rw [if_pos hlen] at heq
              exact ((Option.some.injEq _ _).mp heq).symm
            · rw [if_neg hlen] at heq; cases heq
          subst ht
          split at hparse
          · -- t = []
            rename_i htEmpty
            cases hparse
            have hf : isInfx markerFull (trimChars ((splitOnChar '\n' cellValue).getD 1 [])) = false := by
              rw [htEmpty]; decide
            have hh : isInfx markerHalf (trimChars ((splitOnChar '\n' cellValue).getD 1 [])) = false := by
              rw [htEmpty]; decide
            refine ⟨fun h => ?_, fun _ h => ?_, fun _ _ => ⟨rfl, rfl⟩⟩
            · rw [hf] at h; cases h
            · rw [hh] at h; cases h
          · split at hparse
            · -- fullwidth marker
              rename_i hfull
              cases hparse
              refine ⟨fun _ => ⟨rfl, rfl⟩, fun h _ => ?_, fun h _ => ?_⟩
              · rw [hfull] at h; cases h
              · rw [hfull] at h; cases h
            · split at hparse
              · -- halfwidth marker
                rename_i hfull hhalf
                cases hparse
                refine ⟨fun h => ?_, fun _ _ => ⟨rfl, rfl⟩, fun _ h => ?_⟩
                · rw [eq_false_of_ne_true hfull] at h; cases h
                · rw [hhalf] at h; cases h
              · -- no marker
                rename_i hfull hhalf
                cases hparse
                refine ⟨fun h => ?_, fun _ h => ?_, fun _ _ => ⟨rfl, rfl⟩⟩
                · rw [eq_false_of_ne_true hfull] at h; cases h
                · rw [eq_false_of_ne_true hhalf] at h; cases h

/-- Witness for C3 at a concrete cell. -/
theorem C3_class_teacher_marker_witness :
    (Lesson.mk 1 "语文".data (some "张".data) true).is_class_teacher = true ∧
    (Lesson.mk 1 "语文".data (some "张".data) true).teacher =
      some (removeAll (trimChars ((splitOnChar '\n' "语文\n张（班）".data).getD 1 [])) markerFull) :=
  (C3_class_teacher_marker "语文\n张（班）".data 1
      (Lesson.mk 1 "语文".data (some "张".data) true)
      (by decide) (by decide)).1 (by decide)

/-! ### C8: the duplicate-course splitter -/

/-- C8 counterexample: because Python's `$` matches just before a
trailing newline, the course string `"aa\n"` is split into
`("a", "a")` although it is not equal to `"a" + "a"`. -/
theorem C8_counterexample :
    detectAndSplitDuplicateCourse "aa\n".data = some ("a".data, "a".data) ∧
    "aa\n".data ≠ "a".data ++ "a".data := by decide

theorem halvesRep_eq_some {cs g : List Char} (h : halvesRep cs = some g) :
    cs = g ++ g ∧ '\n' ∉ g ∧ g ≠ [] := by
  unfold halvesRep at h
  split at h
  · rename_i hc
    split at h
    · rename_i hgood
      cases h
      refine ⟨hgood.1, hgood.2, ?_⟩
      have hlen : (cs.take (cs.length / 2)).length = cs.length / 2 := by
        rw [List.length_take]; omega
      intro hnil
      rw [hnil] at hlen
      simp at hlen
      omega
    · cases h
  · cases h

theorem repMatch_eq_some {cs g : List Char} (h : repMatch cs = some g) :
    g ≠ [] ∧ '\n' ∉ g ∧ (cs = g ++ g ∨ cs = g ++ g ++ ['\n']) := by
  unfold repMatch at h
  split at h
  · rename_i gg hh
    cases h
    obtain ⟨heq, hnl, hne⟩ := halvesRep_eq_some hh
    exact ⟨hne, hnl, Or.inl heq⟩
  · rename_i c hnone hlast
    split at h
    · rename_i hc
      subst hc
      obtain ⟨heq, hnl, hne⟩ := halvesRep_eq_some h
      refine ⟨hne, hnl, Or.inr ?_⟩
      have hcsne : cs ≠ [] := by
        intro hnil; rw [hnil] at hlast; cases hlast
      have hlasteq : cs.getLast hcsne = '\n' := by
        rw [List.getLast?_eq_getLast cs hcsne] at hlast
        exact (Option.some.injEq _ _).mp hlast
      calc cs = cs.dropLast ++ [cs.getLast hcsne] :=
            (List.dropLast_append_getLast hcsne).symm
        _ = g ++ g ++ ['\n'] := by rw [heq, hlasteq]
    · cases h
  · cases h

/-- C8, amended: the splitter never splits a course string shorter
than 2 characters, and every split yields two equal newline-free
halves `(s, s)` where the original string is `s ++ s`, or `s ++ s`
followed by a single trailing newline (Python's `$` matches just
before a trailing newline). -/
theorem C8_split_halves (course : List Char) :
    (course.length < 2 → detectAndSplitDuplicateCourse course = none) ∧
    (∀ s1 s2, detectAndSplitDuplicateCourse course = some (s1, s2) →
       s1 = s2 ∧ s1 ≠ [] ∧ '\n' ∉ s1 ∧
       (course = s1 ++ s1 ∨ course = s1 ++ s1 ++ ['\n'])) := by
  constructor
  · intro h
    simp [detectAndSplitDuplicateCourse, h]
  · intro s1 s2 h
    unfold detectAndSplitDuplicateCourse at h
    split at h
    · cases h
    · cases hrep : repMatch course with
      | none => rw [hrep] at h; cases h
      | some g =>
        rw [hrep] at h
        cases h
        obtain ⟨hne, hnl, hor⟩ := repMatch_eq_some hrep
        exact ⟨rfl, hne, hnl, hor⟩

/-- Witness for C8 at concrete course strings. -/
theorem C8_split_halves_witness :
    detectAndSplitDuplicateCourse "a".data = none ∧
    ("ab".data = "ab".data ∧ "ab".data ≠ ([] : List Char) ∧
     '\n' ∉ "ab".data ∧
     ("abab".data = "ab".data ++ "ab".data ∨
      "abab".data = "ab".data ++ "ab".data ++ ['\n'])) :=
  ⟨(C8_split_halves "a".data).1 (by decide),
   (C8_split_halves "abab".data).2 "ab".data "ab".data (by decide)⟩

/-! ### C4: weekday anchors and column ranges -/

theorem lookup_calcRangesGo_of_not_mem {starts : List (String × Nat)}
    {total : Nat} {ws : List String} {w : String} (hw : w ∉ ws) :
    lookupKey (calcRangesGo starts total ws) w = none := by
  induction ws with
  | nil => rfl
  | cons x rest ih =>
    have hxw : x ≠ w := fun h => hw (h ▸ List.mem_cons_self x rest)
    have hwrest : w ∉ rest := fun h => hw (List.mem_cons_of_mem x h)
    unfold calcRangesGo
    cases lookupKey starts x with
    | none => exact ih hwrest
    | some s => simpa [lookupKey, List.find?, hxw] using ih hwrest

theorem lookup_calcRangesGo {starts : List (String × Nat)} {total : Nat}
    {w : String} :
    ∀ {pre post : List String}, (pre ++ w :: post).Nodup →
    lookupKey (calcRangesGo starts total (pre ++ w :: post)) w =
      (lookupKey starts w).map
        (fun s => (s, (post.findSome? (lookupKey starts)).getD total)) := by
  intro pre
  induction pre with
  | nil =>
    intro post hnd
    simp only [List.nil_append]
    unfold calcRangesGo
    cases hs : lookupKey starts w with
    | none =>
      have hwpost : w ∉ post := (List.nodup_cons.mp hnd).1
      simpa using lookup_calcRangesGo_of_not_mem hwpost
    | some s => simp [lookupKey, List.find?]
  | cons x pre ih =>
    intro post hnd
    have hnd' : (pre ++ w :: post).Nodup := (List.nodup_cons.mp (by simpa using hnd)).2
    have hxw : x ≠ w := by
      have hx : x ∉ pre ++ w :: post := (List.nodup_cons.mp (by simpa using hnd)).1
      intro h
      subst h
      exact hx (List.mem_append_right pre (List.mem_cons_self x post))
    simp only [List.cons_append]
    unfold calcRangesGo
    cases lookupKey starts x with
    | none => exact ih hnd'
    | some s => simpa [lookupKey, List.find?, hxw] using ih hnd'

/-- C4: scanning the five weekdays in fixed order, the mapper records
for each weekday the smallest column index whose header cell contains
the weekday name as a substring (omitting weekdays with no match), and
each present weekday's range starts at its recorded column and ends at
the recorded column of the next present weekday in order, or at the
total column count if no later weekday is present. -/
theorem C4_weekday_ranges (header : List String) (total : Nat) (w : String)
    (pre post : List String) (hsplit : WEEKDAYS = pre ++ w :: post) :
    (∀ i, lookupKey (findWeekdayStartColumns header) w = some i ↔
       (i < header.length ∧ isInfx w.data ((header.getD i "")).data = true ∧
        ∀ j, j < i → isInfx w.data ((header.getD j "")).data = false)) ∧
    (lookupKey (findWeekdayStartColumns header) w = none ↔
       ∀ j, j < header.length → isInfx w.data ((header.getD j "")).data = false) ∧
    (lookupKey (calculateWeekdayRanges (findWeekdayStartColumns header) total) w =
       (lookupKey (findWeekdayStartColumns header) w).map
         (fun s => (s,
           (post.findSome? (lookupKey (findWeekdayStartColumns header))).getD total))) ∧
    (∀ e, (post.findSome? (lookupKey (findWeekdayStartColumns header))).getD total = e →
       (∃ pre2 w2 post2, post = pre2 ++ w2 :: post2 ∧
          lookupKey (findWeekdayStartColumns header) w2 = some e ∧
          ∀ y ∈ pre2, lookupKey (findWeekdayStartColumns header) y = none) ∨
       ((∀ y ∈ post, lookupKey (findWeekdayStartColumns header) y = none) ∧
        e = total)) := by
  have hw : w ∈ WEEKDAYS := by
    rw [hsplit]; exact List.mem_append_right pre (List.mem_cons_self w post)
  have hstarts : lookupKey (findWeekdayStartColumns header) w = firstCol header w :=
    lookupKey_starts hw
  refine ⟨?_, ?_, ?_, ?_⟩
  · intro i
    rw [hstarts]
    exact firstCol_eq_some
  · rw [hstarts]
    exact firstCol_eq_none
  · unfold calculateWeekdayRanges
    rw [hsplit]
    exact lookup_calcRangesGo (hsplit ▸ weekdays_nodup)
  · intro e he
    cases hfs : post.findSome? (lookupKey (findWeekdayStartColumns header)) with
    | some c =>
      rw [hfs] at he
      simp only [Option.getD_some] at he
      subst he
      obtain ⟨l₁, a, l₂, hpost, ha, hall⟩ := List.findSome?_eq_some_iff.mp hfs
      exact Or.inl ⟨l₁, a, l₂, hpost, ha, hall⟩
    | none =>
      rw [hfs] at he
      simp only [Option.getD_none] at he
      exact Or.inr ⟨List.findSome?_eq_none_iff.mp hfs, he.symm⟩

/-- Witness for C4: the range of Wednesday in a concrete header where
Monday, Wednesday and Friday are present. -/
theorem C4_weekday_ranges_witness :
    lookupKey
      (calculateWeekdayRanges
        (findWeekdayStartColumns ["班级", "星期一", "", "星期三", "", "", "星期五"]) 7)
      "星期三" =
    (lookupKey (findWeekdayStartColumns ["班级", "星期一", "", "星期三", "", "", "星期五"]) "星期三").map
      (fun s => (s,
        ((["星期四", "星期五"] : List String).findSome?
          (lookupKey (findWeekdayStartColumns ["班级", "星期一", "", "星期三", "", "", "星期五"]))).getD 7)) :=
  (C4_weekday_ranges ["班级", "星期一", "", "星期三", "", "", "星期五"] 7 "星期三"
    ["星期一", "星期二"] ["星期四", "星期五"] (by decide)).2.2.1

/-! ### Structure of the period walk -/

theorem parseCell_period {cv : List Char} {p : Nat} {l : Lesson}
    (h : parseCell cv p = some l) : l.period = p := by
  simp only [parseCell] at h
  split at h
  · cases h; rfl
  · split at h
    · cases h; rfl
    · split at h
      · cases h
      · split at h
        · cases h; rfl
        · split at h
          · cases h; rfl
          · split at h
            · cases h; rfl
            · split at h
              · cases h; rfl
              · cases h; rfl

theorem splitCheck_period_lt {row : List String} {ds mc p : Nat}
    {cv : List Char} {x : List Char × List Char}
    (h : splitCheck row ds mc p cv = some x) : p + 1 ≤ PERIODS_PER_DAY := by
  simp only [splitCheck] at h
  by_cases hle : p + 1 ≤ PERIODS_PER_DAY
  · exact hle
  · rw [if_neg hle] at h
    cases h

theorem scheduleGo_period_ge {row : List String} {ds mc : Nat} :
    ∀ {f p : Nat} {proc : List Nat} {l : Lesson},
      l ∈ scheduleGo row ds mc f p proc → p ≤ l.period := by
  intro f
  induction f with
  | zero =>
    intro p proc l h
    simp [scheduleGo] at h
  | succ f ih =>
    intro p proc l h
    simp only [scheduleGo] at h
    split at h
    · exact Nat.le_of_succ_le (ih h)
    · split at h
      · cases h
      · split at h
        · exact Nat.le_of_succ_le (ih h)
        · split at h
          · rcases List.mem_cons.mp h with rfl | h2
            · exact Nat.le_refl _
            · rcases List.mem_cons.mp h2 with rfl | h3
              · exact Nat.le_succ _
              · exact Nat.le_of_succ_le (ih h3)
          · exact Nat.le_of_succ_le (ih h)
          · rcases List.mem_cons.mp h with rfl | h2
            · rename_i hpd
              exact Nat.le_of_eq (parseCell_period hpd).symm
            · exact Nat.le_of_succ_le (ih h2)
          · exact Nat.le_of_succ_le (ih h)

theorem scheduleGo_period_gt_of_processed {row : List String} {ds mc : Nat}
    {f p : Nat} {proc : List Nat} {l : Lesson} (hp : p ∈ proc)
    (h : l ∈ scheduleGo row ds mc f p proc) : p + 1 ≤ l.period := by
  cases f with
  | zero => simp [scheduleGo] at h
  | succ f =>
    simp only [scheduleGo, if_pos hp] at h
    exact scheduleGo_period_ge h

theorem scheduleGo_pairwise {row : List String} {ds mc : Nat} :
    ∀ {f p : Nat} {proc : List Nat},
      (scheduleGo row ds mc f p proc).Pairwise
        (fun a b => a.period < b.period) := by
  intro f
  induction f with
  | zero => intro p proc; simp [scheduleGo]
  | succ f ih =>
    intro p proc
    simp only [scheduleGo]
    split
    · exact ih
    · split
      · exact List.Pairwise.nil
      · split
        · exact ih
        · split
          · rename_i c1 c2 tmp hsplit hparse
            refine List.Pairwise.cons ?_ (List.Pairwise.cons ?_ ih)
            · intro b hb
              rcases List.mem_cons.mp hb with rfl | hb2
              · show p < p + 1
                exact Nat.lt_succ_self p
              · have hgt := scheduleGo_period_gt_of_processed
                  (List.mem_cons_self _ _) hb2
                show p < b.period
                omega
            · intro b hb
              have hgt := scheduleGo_period_gt_of_processed
                (List.mem_cons_self _ _) hb
              show p + 1 < b.period
              omega
          · exact ih
          · rename_i hsplit pd hparse
            refine List.Pairwise.cons ?_ ih
            intro b hb
            have hge := scheduleGo_period_ge hb
            have hpd := parseCell_period hparse
            omega
          · exact ih

theorem scheduleGo_period_bounds {row : List String} {ds mc : Nat} :
    ∀ {f p : Nat} {proc : List Nat} {l : Lesson}, p + f ≤ 10 → 1 ≤ p →
      l ∈ scheduleGo row ds mc f p proc → 1 ≤ l.period ∧ l.period ≤ 9 := by
  intro f
  induction f with
  | zero =>
    intro p proc l _ _ h
    simp [scheduleGo] at h
  | succ f ih =>
    intro p proc l h10 hp1 h
    simp only [scheduleGo] at h
    split at h
    · exact ih (by omega) (by omega) h
    · split at h
      · cases h
      · split at h
        · exact ih (by omega) (by omega) h
        · split at h
          · rename_i c1 c2 tmp hsplit hparse
            have hlt := splitCheck_period_lt hsplit
            simp only [PERIODS_PER_DAY] at hlt
            rcases List.mem_cons.mp h with rfl | h2
            · refine ⟨hp1, ?_⟩
              show p ≤ 9
              omega
            · rcases List.mem_cons.mp h2 with rfl | h3
              · refine ⟨?_, ?_⟩
                · show 1 ≤ p + 1
                  omega
                · show p + 1 ≤ 9
                  omega
              · exact ih (by omega) (by omega) h3
          · exact ih (by omega) (by omega) h
          · rcases List.mem_cons.mp h with rfl | h2
            · rename_i hpd
              have := parseCell_period hpd
              omega
            · exact ih (by omega) (by omega) h2
          · exact ih (by omega) (by omega) h

theorem scheduleGo_length_le {row : List String} {ds mc f p : Nat}
    {proc : List Nat} (h10 : p + f ≤ 10) (hp1 : 1 ≤ p) :
    (scheduleGo row ds mc f p proc).length ≤ 9 := by
  have hpw : ((scheduleGo row ds mc f p proc).map Lesson.period).Pairwise
      (fun a b => a < b) :=
    List.pairwise_map.mpr scheduleGo_pairwise
  have hnd : ((scheduleGo row ds mc f p proc).map Lesson.period).Nodup :=
    hpw.imp Nat.ne_of_lt
  have hsub : ((scheduleGo row ds mc f p proc).map Lesson.period).toFinset ⊆
      Finset.Icc 1 9 := by
    intro x hx
    obtain ⟨l, hl, rfl⟩ := List.mem_map.mp (List.mem_toFinset.mp hx)
    have hb := scheduleGo_period_bounds h10 hp1 hl
    exact Finset.mem_Icc.mpr hb
  calc (scheduleGo row ds mc f p proc).length
      = ((scheduleGo row ds mc f p proc).map Lesson.period).length := by
        rw [List.length_map]
    _ = ((scheduleGo row ds mc f p proc).map Lesson.period).toFinset.card :=
        (List.toFinset_card_of_nodup hnd).symm
    _ ≤ (Finset.Icc 1 9).card := Finset.card_le_card hsub
    _ = 9 := by rw [Nat.card_Icc]

theorem parseWeekday_length_le (row : List String)
    (ranges : List (String × (Nat × Nat))) (w : String) :
    (parseWeekday row ranges w).length ≤ 9 := by
  unfold parseWeekday
  split
  · simp
  · exact scheduleGo_length_le (by simp [PERIODS_PER_DAY]) (by omega)

theorem parseWeekday_period_bounds {row : List String}
    {ranges : List (String × (Nat × Nat))} {w : String} {l : Lesson}
    (h : l ∈ parseWeekday row ranges w) : 1 ≤ l.period ∧ l.period ≤ 9 := by
  unfold parseWeekday at h
  split at h
  · cases h
  · exact scheduleGo_period_bounds (by simp [PERIODS_PER_DAY]) (by omega) h

/-! ### Membership in the built timetable -/

theorem mem_dictInsert {α : Type} {d : List (String × α)} {k : String}
    {v : α} {p : String × α} (h : p ∈ dictInsert d k v) :
    p ∈ d ∨ p = (k, v) := by
  unfold dictInsert at h
  split at h
  · obtain ⟨q, hq, hpq⟩ := List.mem_map.mp h
    by_cases hk : q.1 = k
    · right; rw [← hpq, if_pos hk]
    · left; rw [← hpq, if_neg hk]; exact hq
  · rcases List.mem_append.mp h with h1 | h2
    · exact Or.inl h1
    · right
      simpa using h2

theorem mem_buildTimetable_foldl {ranges : List (String × (Nat × Nat))}
    {rows : List (List String)} :
    ∀ {acc : Timetable} {e : String × ClassSchedule},
      e ∈ rows.foldl
        (fun acc row =>
          if isClassRow row (classNameOf row) then
            dictInsert acc (classKey row) (parseClassSchedule row ranges)
          else acc) acc →
      e ∈ acc ∨ ∃ row ∈ rows, e = (classKey row, parseClassSchedule row ranges) := by
  induction rows with
  | nil =>
    intro acc e h
    exact Or.inl h
  | cons r rest ih =>
    intro acc e h
    simp only [List.foldl_cons] at h
    rcases ih h with hacc | ⟨row, hrow, heq⟩
    · by_cases hcr : isClassRow r (classNameOf r) = true
      · rw [if_pos hcr] at hacc
        rcases mem_dictInsert hacc with h1 | h2
        · exact Or.inl h1
        · exact Or.inr ⟨r, List.mem_cons_self r rest, h2⟩
      · rw [if_neg hcr] at hacc
        exact Or.inl hacc
    · exact Or.inr ⟨row, List.mem_cons_of_mem r hrow, heq⟩

theorem mem_buildTimetable {grid : List (List String)}
    {ranges : List (String × (Nat × Nat))} {e : String × ClassSchedule}
    (h : e ∈ buildTimetable grid ranges) :
    ∃ row ∈ grid.drop 2, e = (classKey row, parseClassSchedule row ranges) := by
  rcases mem_buildTimetable_foldl h with habs | hgood
  · cases habs
  · exact hgood

theorem parseToJson_ok {grid : List (List String)} {tt : Timetable}
    (h : parseToJson grid = .ok tt) :
    tt = buildTimetable grid
      (calculateWeekdayRanges (findWeekdayStartColumns (grid.getD 0 []))
        (grid.getD 0 []).length) := by
  simp only [parseToJson] at h
  split at h
  · cases h
  · split at h
    · cases h
    · cases h; rfl

/-! ### C5: at most 9 lessons per weekday, at most 45 per class -/

/-- C5: for every accepted grid and every class entry in the
resulting timetable, every weekday's lesson list has at most 9
lessons, all with period numbers in 1..9, and the total number of
lessons over all weekdays of the class is at most 45. -/
theorem C5_lesson_bounds (grid : List (List String)) (tt : Timetable)
    (hok : parseToJson grid = .ok tt) (entry : String × ClassSchedule)
    (hentry : entry ∈ tt) :
    (∀ wk ∈ entry.2, wk.2.length ≤ 9 ∧
       ∀ l ∈ wk.2, 1 ≤ l.period ∧ l.period ≤ 9) ∧
    (entry.2.map (fun wk => wk.2.length)).sum ≤ 45 := by
  rw [parseToJson_ok hok] at hentry
  obtain ⟨row, _, rfl⟩ := mem_buildTimetable hentry
  constructor
  · intro wk hwk
    simp only [parseClassSchedule, List.mem_map] at hwk
    obtain ⟨w, _, rfl⟩ := hwk
    exact ⟨parseWeekday_length_le _ _ _,
           fun l hl => parseWeekday_period_bounds hl⟩
  · simp only [parseClassSchedule, WEEKDAYS, List.map_cons, List.map_nil,
      List.sum_cons, List.sum_nil]
    have h1 := parseWeekday_length_le row
      (calculateWeekdayRanges (findWeekdayStartColumns (grid.getD 0 []))
        (grid.getD 0 []).length) "星期一"
    have h2 := parseWeekday_length_le row
      (calculateWeekdayRanges (findWeekdayStartColumns (grid.getD 0 []))
        (grid.getD 0 []).length) "星期二"
    have h3 := parseWeekday_length_le row
      (calculateWeekdayRanges (findWeekdayStartColumns (grid.getD 0 []))
        (grid.getD 0 []).length) "星期三"
    have h4 := parseWeekday_length_le row
      (calculateWeekdayRanges (findWeekdayStartColumns (grid.getD 0 []))
        (grid.getD 0 []).length) "星期四"
    have h5 := parseWeekday_length_le row
      (calculateWeekdayRanges (findWeekdayStartColumns (grid.getD 0 []))
        (grid.getD 0 []).length) "星期五"
    omega

/-- Witness for C5 at a concrete grid. -/
theorem C5_lesson_bounds_witness :
    ((((buildTimetable gridA
          (calculateWeekdayRanges (findWeekdayStartColumns (gridA.getD 0 []))
            (gridA.getD 0 []).length)).getD 0 ("", [])).2.map
        (fun wk => wk.2.length)).sum ≤ 45) :=
  (C5_lesson_bounds gridA _ rfl _ (by decide)).2

/-! ### C2: weekday keys of the serialized output -/

theorem mem_orderedInsertByName {p x : String × ClassSchedule}
    {l : List (String × ClassSchedule)} :
    x ∈ orderedInsertByName p l ↔ x = p ∨ x ∈ l := by
  induction l with
  | nil => simp [orderedInsertByName]
  | cons q rest ih =>
    unfold orderedInsertByName
    split
    · simp only [List.mem_cons, ih]
      tauto
    · simp only [List.mem_cons]

theorem mem_sortedByKey {x : String × ClassSchedule} {tt : Timetable} :
    x ∈ sortedByKey tt ↔ x ∈ tt := by
  unfold sortedByKey
  induction tt with
  | nil => simp
  | cons e rest ih =>
    simp only [List.foldr_cons, mem_orderedInsertByName, List.mem_cons, ih]

theorem lookupKey_map_self {α : Type} {f : String → α} :
    ∀ {ws : List String} {w : String}, ws.Nodup → w ∈ ws →
      lookupKey (ws.map (fun x => (x, f x))) w = some (f w) := by
  intro ws
  induction ws with
  | nil => intro w _ hw; cases hw
  | cons x rest ih =>
    intro w hnd hw
    rcases List.mem_cons.mp hw with rfl | hmem
    · simp [lookupKey, List.find?]
    · have hxw : x ≠ w := by
        rintro rfl
        exact (List.nodup_cons.mp hnd).1 hmem
      simpa [lookupKey, List.find?, hxw] using ih (List.nodup_cons.mp hnd).2 hmem

theorem lookupKey_parseClassSchedule {row : List String}
    {R : List (String × (Nat × Nat))} {w : String} (hw : w ∈ WEEKDAYS) :
    lookupKey (parseClassSchedule row R) w = some (parseWeekday row R w) :=
  lookupKey_map_self weekdays_nodup hw

theorem parseWeekday_eq_nil_of_absent {header : List String} {total : Nat}
    {row : List String} {w : String} (hw : w ∈ WEEKDAYS)
    (hnone : firstCol header w = none) :
    parseWeekday row
      (calculateWeekdayRanges (findWeekdayStartColumns header) total) w = [] := by
  obtain ⟨pre, post, hsplit⟩ := List.append_of_mem hw
  have hlk : lookupKey
      (calculateWeekdayRanges (findWeekdayStartColumns header) total) w = none := by
    unfold calculateWeekdayRanges
    rw [hsplit, lookup_calcRangesGo (hsplit ▸ weekdays_nodup),
        lookupKey_starts hw, hnone]
    rfl
  unfold parseWeekday
  rw [hlk]

theorem formatSchedule_eq (row : List String) (R : List (String × (Nat × Nat))) :
    WEEKDAYS.filterMap (fun w =>
      match lookupKey (parseClassSchedule row R) w with
      | some lessons => some ((lookupKey WEEKDAY_EN_MAP w).getD w, lessons)
      | none => none) =
    [("monday", parseWeekday row R "星期一"),
     ("tuesday", parseWeekday row R "星期二"),
     ("wednesday", parseWeekday row R "星期三"),
     ("thursday", parseWeekday row R "星期四"),
     ("friday", parseWeekday row R "星期五")] := rfl

/-- C2 counterexample: with a header anchoring only Monday, the
serialized schedule of a class still carries all five weekday keys, in
particular a "tuesday" key although Tuesday has no mapped column. -/
theorem C2_counterexample :
    firstCol (gridB.getD 0 []) "星期二" = none ∧
    parseToJson gridB = .ok (buildTimetable gridB
      (calculateWeekdayRanges (findWeekdayStartColumns (gridB.getD 0 []))
        (gridB.getD 0 []).length)) ∧
    (formatTimetable (buildTimetable gridB
        (calculateWeekdayRanges (findWeekdayStartColumns (gridB.getD 0 []))
          (gridB.getD 0 []).length))).map
      (fun c => c.2.map (fun wk => wk.1)) =
      [["monday", "tuesday", "wednesday", "thursday", "friday"]] :=
  ⟨by decide, rfl, by decide⟩

/-- C2, amended: in the serialized output every class's schedule
carries all five weekday keys in fixed order, whether or not the
weekday had a mapped column; a weekday absent from the header row has
no range and yields an empty lesson list under its key in every
class. -/
theorem C2_weekday_keys (grid : List (List String)) (tt : Timetable)
    (hok : parseToJson grid = .ok tt)
    (c : String × List (String × List Lesson)) (hc : c ∈ formatTimetable tt) :
    c.2.map (fun wk => wk.1) =
      ["monday", "tuesday", "wednesday", "thursday", "friday"] ∧
    ∀ w ∈ WEEKDAYS,
      (∀ j, j < (grid.getD 0 []).length →
        isInfx w.data (((grid.getD 0 []).getD j "")).data = false) →
      ((lookupKey WEEKDAY_EN_MAP w).getD w, ([] : List Lesson)) ∈ c.2 := by
  unfold formatTimetable at hc
  obtain ⟨e, he, rfl⟩ := List.mem_map.mp hc
  have hemem : e ∈ tt := mem_sortedByKey.mp he
  rw [parseToJson_ok hok] at hemem
  obtain ⟨row, _, rfl⟩ := mem_buildTimetable hemem
  constructor
  · rw [formatSchedule_eq]
    rfl
  · intro w hw habsent
    have hnone : firstCol (grid.getD 0 []) w = none := firstCol_eq_none.mpr habsent
    have hnil : parseWeekday row
        (calculateWeekdayRanges (findWeekdayStartColumns (grid.getD 0 []))
          (grid.getD 0 []).length) w = [] :=
      parseWeekday_eq_nil_of_absent hw hnone
    refine List.mem_filterMap.mpr ⟨w, hw, ?_⟩
    rw [lookupKey_parseClassSchedule hw, hnil]

/-- Witness for C2 at gridB. -/
theorem C2_weekday_keys_witness :
    (((formatTimetable (buildTimetable gridB
        (calculateWeekdayRanges (findWeekdayStartColumns (gridB.getD 0 []))
          (gridB.getD 0 []).length))).getD 0 ("", [])).2.map (fun wk => wk.1) =
      ["monday", "tuesday", "wednesday", "thursday", "friday"]) ∧
    ((lookupKey WEEKDAY_EN_MAP "星期二").getD "星期二", ([] : List Lesson)) ∈
      ((formatTimetable (buildTimetable gridB
        (calculateWeekdayRanges (findWeekdayStartColumns (gridB.getD 0 []))
          (gridB.getD 0 []).length))).getD 0 ("", [])).2 :=
  ⟨(C2_weekday_keys gridB _ rfl _ (by decide)).1,
   (C2_weekday_keys gridB _ rfl _ (by decide)).2 "星期二" (by decide) (by decide)⟩

/-! ### C9: 'nan' cells behave exactly like empty cells -/

theorem find?_range_congr {p q : Nat → Bool} {n : Nat}
    (h : ∀ i, i < n → p i = q i) :
    (List.range n).find? p = (List.range n).find? q := by
  cases hq : (List.range n).find? q with
  | some i =>
    obtain ⟨h1, h2, h3⟩ := find?_range_eq_some.mp hq
    exact find?_range_eq_some.mpr
      ⟨h1, (h i h1).trans h2,
       fun j hj => (h j (Nat.lt_trans hj h1)).trans (h3 j hj)⟩
  | none =>
    exact find?_range_eq_none.mpr
      (fun j hj => (h j hj).trans (find?_range_eq_none.mp hq j hj))

theorem trimChars_decomp (cs : List Char) :
    ∃ pre suf, cs = pre ++ trimChars cs ++ suf ∧
      (∀ c ∈ pre, c.isWhitespace = true) ∧
      (∀ c ∈ suf, c.isWhitespace = true) := by
  refine ⟨cs.takeWhile Char.isWhitespace,
    ((cs.dropWhile Char.isWhitespace).reverse.takeWhile Char.isWhitespace).reverse,
    ?_, ?_, ?_⟩
  · conv_lhs =>
      rw [← List.takeWhile_append_dropWhile (p := Char.isWhitespace) (l := cs)]
    rw [List.append_assoc]
    congr 1
    have hd : (cs.dropWhile Char.isWhitespace).reverse =
        (cs.dropWhile Char.isWhitespace).reverse.takeWhile Char.isWhitespace ++
        (cs.dropWhile Char.isWhitespace).reverse.dropWhile Char.isWhitespace :=
      (List.takeWhile_append_dropWhile _ _).symm
    calc cs.dropWhile Char.isWhitespace
        = (cs.dropWhile Char.isWhitespace).reverse.reverse :=
          (List.reverse_reverse _).symm
      _ = ((cs.dropWhile Char.isWhitespace).reverse.takeWhile Char.isWhitespace ++
            (cs.dropWhile Char.isWhitespace).reverse.dropWhile Char.isWhitespace).reverse := by
          rw [← hd]
      _ = trimChars cs ++
            ((cs.dropWhile Char.isWhitespace).reverse.takeWhile Char.isWhitespace).reverse := by
          rw [List.reverse_append]
          rfl
  · intro c hc
    exact List.mem_takeWhile_imp hc
  · intro c hc
    exact List.mem_takeWhile_imp (List.mem_reverse.mp hc)

theorem weekday_not_in_nan {cell : String}
    (h : trimChars cell.data = "nan".data) {w : String} (hw : w ∈ WEEKDAYS) :
    isInfx w.data cell.data = false := by
  have hstar : '星' ∈ w.data := by fin_cases hw <;> decide
  by_cases ht : isInfx w.data cell.data = true
  case neg => exact eq_false_of_ne_true ht
  case pos =>
    exfalso
    have hinf : w.data <:+: cell.data := of_decide_eq_true ht
    have hsub : '星' ∈ cell.data := hinf.subset hstar
    obtain ⟨pre, suf, hdecomp, hpre, hsuf⟩ := trimChars_decomp cell.data
    rw [hdecomp] at hsub
    rw [h] at hsub
    rcases List.mem_append.mp hsub with hs | hs3
    · rcases List.mem_append.mp hs with hs1 | hs2
      · have := hpre _ hs1
        simp at this
      · revert hs2
        decide
    · have := hsuf _ hs3
      simp at this

theorem isInfx_nil {pat : List Char} (h : pat ≠ []) : isInfx pat [] = false := by
  by_cases ht : isInfx pat [] = true
  · exact absurd (List.eq_nil_of_infix_nil (of_decide_eq_true ht)) h
  · exact eq_false_of_ne_true ht

theorem firstCol_replaceNan (header : List String) {w : String}
    (hw : w ∈ WEEKDAYS) :
    firstCol (replaceNanRow header) w = firstCol header w := by
  unfold firstCol replaceNanRow
  rw [List.length_map]
  apply find?_range_congr
  intro i hi
  have hcell : (header.map nanToEmpty).getD i "" = nanToEmpty (header.getD i "") := by
    have hgi : header[i]? = some header[i] := List.getElem?_eq_getElem hi
    simp [List.getD_eq_getElem?_getD, List.getElem?_map, hgi]
  rw [hcell]
  unfold nanToEmpty
  split
  · rename_i hnan
    rw [weekday_not_in_nan hnan hw]
    have hne : w.data ≠ [] := by fin_cases hw <;> decide
    exact isInfx_nil hne
  · rfl

theorem findWeekdayStartColumns_replaceNan (header : List String) :
    findWeekdayStartColumns (replaceNanRow header) =
      findWeekdayStartColumns header := by
  unfold findWeekdayStartColumns
  exact List.filterMap_congr (fun w hw => by rw [firstCol_replaceNan header hw])

theorem length_replaceNanRow (row : List String) :
    (replaceNanRow row).length = row.length := List.length_map _ _

theorem cellAt_replaceNan (row : List String) (i : Nat) :
    cellAt (replaceNanRow row) i =
      (if cellAt row i = "nan".data then [] else cellAt row i) := by
  by_cases hi : i < row.length
  · have hcell : (replaceNanRow row).getD i "" = nanToEmpty (row.getD i "") := by
      have hgi : row[i]? = some row[i] := List.getElem?_eq_getElem hi
      simp [replaceNanRow, List.getD_eq_getElem?_getD, List.getElem?_map, hgi]
    unfold cellAt
    rw [hcell]
    unfold nanToEmpty
    split
    · rfl
    · rfl
  · have h1 : (replaceNanRow row).getD i "" = "" :=
      List.getD_eq_default _ _ (by rw [length_replaceNanRow]; omega)
    have h2 : row.getD i "" = "" := List.getD_eq_default _ _ (by omega)
    unfold cellAt
    rw [h1, h2]
    rfl

theorem isEmptyCell_cellAt_replaceNan (row : List String) (i : Nat) :
    isEmptyCell (cellAt (replaceNanRow row) i) = isEmptyCell (cellAt row i) := by
  rw [cellAt_replaceNan]
  split
  · rename_i hnan
    rw [hnan]
    rfl
  · rfl

theorem cellAt_replaceNan_of_not_empty {row : List String} {i : Nat}
    (h : isEmptyCell (cellAt row i) = false) :
    cellAt (replaceNanRow row) i = cellAt row i := by
  rw [cellAt_replaceNan]
  split
  · rename_i hnan
    rw [hnan] at h
    cases h
  · rfl

theorem splitCheck_replaceNan (row : List String) (ds mc p : Nat)
    (cv : List Char) :
    splitCheck (replaceNanRow row) ds mc p cv = splitCheck row ds mc p cv := by
  simp only [splitCheck, length_replaceNanRow, isEmptyCell_cellAt_replaceNan]

theorem scheduleGo_replaceNan (row : List String) (ds mc : Nat) :
    ∀ (f p : Nat) (proc : List Nat),
      scheduleGo (replaceNanRow row) ds mc f p proc =
        scheduleGo row ds mc f p proc := by
  intro f
  induction f with
  | zero => intro p proc; rfl
  | succ f ih =>
    intro p proc
    by_cases hmem : p ∈ proc
    · simp only [scheduleGo, if_pos hmem, ih]
    · by_cases hbreak : mc ≤ ds + p - 1 ∨ row.length ≤ ds + p - 1
      · have hbreak' : mc ≤ ds + p - 1 ∨ (replaceNanRow row).length ≤ ds + p - 1 := by
          rw [length_replaceNanRow]; exact hbreak
        simp only [scheduleGo, if_neg hmem, if_pos hbreak, if_pos hbreak']
      · have hbreak' : ¬(mc ≤ ds + p - 1 ∨ (replaceNanRow row).length ≤ ds + p - 1) := by
          rw [length_replaceNanRow]; exact hbreak
        by_cases hemp : isEmptyCell (cellAt row (ds + p - 1)) = true
        · have hemp' : isEmptyCell (cellAt (replaceNanRow row) (ds + p - 1)) = true := by
            rw [isEmptyCell_cellAt_replaceNan]; exact hemp
          simp only [scheduleGo, if_neg hmem, if_neg hbreak, if_neg hbreak',
            if_pos hemp, if_pos hemp', ih]
        · have hempf : isEmptyCell (cellAt row (ds + p - 1)) = false :=
            eq_false_of_ne_true hemp
          have hemp' : ¬isEmptyCell (cellAt (replaceNanRow row) (ds + p - 1)) = true := by
            rw [isEmptyCell_cellAt_replaceNan]; exact hemp
          have hcv : cellAt (replaceNanRow row) (ds + p - 1) = cellAt row (ds + p - 1) :=
            cellAt_replaceNan_of_not_empty hempf
          simp only [scheduleGo, if_neg hmem, if_neg hbreak, if_neg hbreak',
            if_neg hemp, if_neg hemp', hcv, splitCheck_replaceNan, ih]

theorem parseClassSchedule_replaceNan (row : List String)
    (ranges : List (String × (Nat × Nat))) :
    parseClassSchedule (replaceNanRow row) ranges =
      parseClassSchedule row ranges := by
  unfold parseClassSchedule
  apply List.map_congr_left
  intro w _
  unfold parseWeekday
  cases lookupKey ranges w with
  | none => rfl
  | some r =>
    simp only [length_replaceNanRow, scheduleGo_replaceNan]

theorem isClassRow_nan (row : List String)
    (h : classNameOf row = "nan".data) :
    isClassRow row (classNameOf row) = false := by
  unfold isClassRow
  rw [if_pos]
  rw [h]
  decide

theorem isClassRow_empty (row : List String) :
    isClassRow row [] = false := by
  unfold isClassRow
  rw [if_pos]
  decide

theorem classNameOf_replaceNan (row : List String) :
    classNameOf (replaceNanRow row) =
      (if classNameOf row = "nan".data then [] else classNameOf row) :=
  cellAt_replaceNan row 0

theorem isClassRow_replaceNan (row : List String) :
    isClassRow (replaceNanRow row) (classNameOf (replaceNanRow row)) =
      isClassRow row (classNameOf row) := by
  have hfun : (fun k => !isEmptyCell (cellAt (replaceNanRow row) (k + 1))) =
      (fun k => !isEmptyCell (cellAt row (k + 1))) := by
    funext k
    rw [isEmptyCell_cellAt_replaceNan]
  by_cases hnan : classNameOf row = "nan".data
  · rw [classNameOf_replaceNan, if_pos hnan, isClassRow_nan row hnan,
        isClassRow_empty]
  · rw [classNameOf_replaceNan, if_neg hnan]
    unfold isClassRow
    rw [length_replaceNanRow, hfun]

theorem drop_two_map {α β : Type} (f : α → β) (l : List α) :
    (l.map f).drop 2 = (l.drop 2).map f := by
  cases l with
  | nil => rfl
  | cons a t =>
    cases t with
    | nil => rfl
    | cons b t2 => rfl

theorem isClassRow_ne_nan {row : List String}
    (h : isClassRow row (classNameOf row) = true) :
    ¬classNameOf row = "nan".data := by
  intro hnan
  rw [isClassRow_nan row hnan] at h
  cases h

theorem buildTimetable_replaceNan (grid : List (List String))
    (ranges : List (String × (Nat × Nat))) :
    buildTimetable (replaceNanGrid grid) ranges = buildTimetable grid ranges := by
  unfold buildTimetable replaceNanGrid
  rw [drop_two_map, List.foldl_map]
  have hstep : (fun (acc : Timetable) (row : List String) =>
      if isClassRow (replaceNanRow row) (classNameOf (replaceNanRow row)) then
        dictInsert acc (classKey (replaceNanRow row))
          (parseClassSchedule (replaceNanRow row) ranges)
      else acc) =
      (fun (acc : Timetable) (row : List String) =>
        if isClassRow row (classNameOf row) then
          dictInsert acc (classKey row) (parseClassSchedule row ranges)
        else acc) := by
    funext acc row
    rw [isClassRow_replaceNan]
    by_cases hcls : isClassRow row (classNameOf row) = true
    · rw [if_pos hcls, if_pos hcls]
      have hnotnan : ¬classNameOf row = "nan".data := isClassRow_ne_nan hcls
      have hkey : classKey (replaceNanRow row) = classKey row := by
        unfold classKey
        rw [classNameOf_replaceNan, if_neg hnotnan]
      rw [hkey, parseClassSchedule_replaceNan]
    · rw [if_neg hcls, if_neg hcls]
  rw [hstep]

/-- C9: a cell whose trimmed text is the literal 'nan' behaves exactly
like an empty cell: replacing every such cell by an empty one leaves
the whole conversion unchanged, a 'nan' first cell never classifies a
row as a class row, and a row's parsed schedule (lessons produced and
splits enabled by an empty next cell) is unchanged by the
replacement. -/
theorem C9_nan_like_empty (grid : List (List String)) (row : List String)
    (ranges : List (String × (Nat × Nat))) :
    parseToJson (replaceNanGrid grid) = parseToJson grid ∧
    (classNameOf row = "nan".data → isClassRow row (classNameOf row) = false) ∧
    parseClassSchedule (replaceNanRow row) ranges =
      parseClassSchedule row ranges ∧
    isClassRow (replaceNanRow row) (classNameOf (replaceNanRow row)) =
      isClassRow row (classNameOf row) := by
  refine ⟨?_, isClassRow_nan row, parseClassSchedule_replaceNan row ranges,
    isClassRow_replaceNan row⟩
  have hhead : (replaceNanGrid grid).getD 0 [] = replaceNanRow (grid.getD 0 []) := by
    cases grid with
    | nil => rfl
    | cons h t => rfl
  have hlen : (replaceNanGrid grid).length = grid.length := List.length_map _ _
  simp only [parseToJson, hlen, hhead, findWeekdayStartColumns_replaceNan,
    length_replaceNanRow, buildTimetable_replaceNan]

/-- Witness for C9 at a concrete grid with 'nan' artifacts. -/
theorem C9_nan_like_empty_witness :
    parseToJson (replaceNanGrid gridN) = parseToJson gridN ∧
    isClassRow ["nan", "语文\n张"] (classNameOf ["nan", "语文\n张"]) = false ∧
    parseClassSchedule (replaceNanRow ["初三.1班", "选修课选修课", "nan"])
        [("星期一", (1, 3))] =
      parseClassSchedule ["初三.1班", "选修课选修课", "nan"] [("星期一", (1, 3))] :=
  ⟨(C9_nan_like_empty gridN [] []).1,
   (C9_nan_like_empty [] ["nan", "语文\n张"] []).2.1 (by decide),
   (C9_nan_like_empty [] ["初三.1班", "选修课选修课", "nan"]
      [("星期一", (1, 3))]).2.2.1⟩

/-! ### C10: duplicate class names overwrite, statistics count names once -/

theorem foldl_filter_step {α : Type} (cond : List String → Bool)
    (f : α → List String → α) :
    ∀ (rows : List (List String)) (acc : α),
      rows.foldl (fun a r => if cond r then f a r else a) acc =
        (rows.filter cond).foldl f acc := by
  intro rows
  induction rows with
  | nil => intro acc; rfl
  | cons r rest ih =>
    intro acc
    rw [List.foldl_cons, List.filter_cons]
    by_cases hc : cond r = true
    · rw [if_pos hc, if_pos hc, List.foldl_cons, ih]
    · rw [if_neg hc, if_neg hc, ih]

theorem buildTimetable_eq_classRows (grid : List (List String))
    (ranges : List (String × (Nat × Nat))) :
    buildTimetable grid ranges =
      (classRows grid).foldl
        (fun acc r => dictInsert acc (classKey r) (parseClassSchedule r ranges))
        [] := by
  unfold buildTimetable classRows
  exact foldl_filter_step (fun r => isClassRow r (classNameOf r))
    (fun acc r => dictInsert acc (classKey r) (parseClassSchedule r ranges))
    (grid.drop 2) []

theorem find?_update_self {α : Type} {k : String} {v : α} :
    ∀ {d : List (String × α)}, d.any (fun p => p.1 = k) = true →
      (d.map (fun p => if p.1 = k then (k, v) else p)).find?
        (fun p => p.1 = k) = some (k, v) := by
  intro d
  induction d with
  | nil => intro h; simp at h
  | cons q rest ih =>
    intro hany
    by_cases hq : q.1 = k
    · simp [List.find?, if_pos hq]
    · have hany' : rest.any (fun p => p.1 = k) = true := by
        rcases List.any_eq_true.mp hany with ⟨x, hx, hpx⟩
        rcases List.mem_cons.mp hx with rfl | hxr
        · exact absurd (of_decide_eq_true hpx) hq
        · exact List.any_eq_true.mpr ⟨x, hxr, hpx⟩
      simp only [List.map_cons, if_neg hq, List.find?]
      rw [decide_eq_false hq]
      exact ih hany'

theorem lookupKey_dictInsert_self {α : Type} (d : List (String × α))
    (k : String) (v : α) :
    lookupKey (dictInsert d k v) k = some v := by
  unfold dictInsert
  split
  · rename_i hany
    unfold lookupKey
    rw [find?_update_self hany]
    rfl
  · rename_i hany
    unfold lookupKey
    rw [List.find?_append]
    have hnone : d.find? (fun p => decide (p.1 = k)) = none := by
      rw [List.find?_eq_none]
      intro p hp hdec
      exact hany (List.any_eq_true.mpr ⟨p, hp, hdec⟩)
    rw [hnone]
    simp [List.find?]

theorem find?_update_ne {α : Type} {x k : String} (hx : x ≠ k) (v : α) :
    ∀ (d : List (String × α)),
      (d.map (fun p => if p.1 = k then (k, v) else p)).find?
          (fun p => p.1 = x) =
        d.find? (fun p => p.1 = x) := by
  intro d
  induction d with
  | nil => rfl
  | cons q rest ih =>
    by_cases hq : q.1 = k
    · have h1 : ¬(k = x) := fun h => hx h.symm
      have h2 : ¬(q.1 = x) := fun h => hx (by rw [← h]; exact hq)
      simp only [List.map_cons, if_pos hq, List.find?]
      rw [decide_eq_false h1, decide_eq_false h2]
      exact ih
    · simp only [List.map_cons, if_neg hq, List.find?]
      by_cases hqx : q.1 = x
      · rw [decide_eq_true hqx]
      · rw [decide_eq_false hqx]
        exact ih

theorem lookupKey_dictInsert_ne {α : Type} {x k : String} (hx : x ≠ k)
    (d : List (String × α)) (v : α) :
    lookupKey (dictInsert d k v) x = lookupKey d x := by
  unfold dictInsert
  split
  · unfold lookupKey
    rw [find?_update_ne hx v d]
  · unfold lookupKey
    rw [List.find?_append]
    have hkx : decide (k = x) = false := decide_eq_false (fun h => hx h.symm)
    have h2 : ([(k, v)].find? (fun p => decide (p.1 = x))) = none := by
      simp only [List.find?, hkx]
    rw [h2, Option.or_none]

theorem keys_dictInsert_present {α : Type} {d : List (String × α)}
    {k : String} {v : α} (h : d.any (fun p => p.1 = k) = true) :
    (dictInsert d k v).map Prod.fst = d.map Prod.fst := by
  unfold dictInsert
  rw [if_pos h, List.map_map]
  apply List.map_congr_left
  intro p _
  by_cases hp : p.1 = k
  · simp [Function.comp, if_pos hp, hp]
  · simp [Function.comp, if_neg hp]

theorem keys_dictInsert_absent {α : Type} {d : List (String × α)}
    {k : String} {v : α} (h : ¬d.any (fun p => p.1 = k) = true) :
    (dictInsert d k v).map Prod.fst = d.map Prod.fst ++ [k] := by
  unfold dictInsert
  rw [if_neg h]
  simp

theorem key_mem_of_any {α : Type} {d : List (String × α)} {k : String}
    (h : d.any (fun p => p.1 = k) = true) : k ∈ d.map Prod.fst := by
  rcases List.any_eq_true.mp h with ⟨p, hp, hpk⟩
  exact List.mem_map.mpr ⟨p, hp, of_decide_eq_true hpk⟩

theorem any_of_key_mem {α : Type} {d : List (String × α)} {k : String}
    (h : k ∈ d.map Prod.fst) : d.any (fun p => p.1 = k) = true := by
  obtain ⟨p, hp, rfl⟩ := List.mem_map.mp h
  exact List.any_eq_true.mpr ⟨p, hp, decide_eq_true rfl⟩

theorem keys_foldl_dictInsert_nodup {α : Type} :
    ∀ (kvs : List (String × α)) (acc : List (String × α)),
      (acc.map Prod.fst).Nodup →
      ((kvs.foldl (fun d p => dictInsert d p.1 p.2) acc).map Prod.fst).Nodup := by
  intro kvs
  induction kvs with
  | nil => intro acc h; exact h
  | cons p rest ih =>
    intro acc hacc
    rw [List.foldl_cons]
    apply ih
    by_cases hany : acc.any (fun q => q.1 = p.1) = true
    · rw [keys_dictInsert_present hany]
      exact hacc
    · rw [keys_dictInsert_absent hany]
      rw [List.nodup_append]
      refine ⟨hacc, List.nodup_singleton _, ?_⟩
      intro x hx hx2
      have : x = p.1 := by simpa using hx2
      subst this
      exact hany (any_of_key_mem hx)

theorem keys_foldl_dictInsert_mem {α : Type} :
    ∀ (kvs : List (String × α)) (acc : List (String × α)) (x : String),
      (x ∈ (kvs.foldl (fun d p => dictInsert d p.1 p.2) acc).map Prod.fst ↔
        x ∈ acc.map Prod.fst ∨ x ∈ kvs.map Prod.fst) := by
  intro kvs
  induction kvs with
  | nil => intro acc x; simp
  | cons p rest ih =>
    intro acc x
    rw [List.foldl_cons, ih, List.map_cons, List.mem_cons]
    by_cases hany : acc.any (fun q => q.1 = p.1) = true
    · rw [keys_dictInsert_present hany]
      constructor
      · rintro (h | h)
        · exact Or.inl h
        · exact Or.inr (Or.inr h)
      · rintro (h | h | h)
        · exact Or.inl h
        · exact Or.inl (h ▸ key_mem_of_any hany)
        · exact Or.inr h
    · rw [keys_dictInsert_absent hany]
      rw [List.mem_append]
      constructor
      · rintro ((h | h) | h)
        · exact Or.inl h
        · exact Or.inr (Or.inl (by simpa using h))
        · exact Or.inr (Or.inr h)
      · rintro (h | h | h)
        · exact Or.inl (Or.inl h)
        · exact Or.inl (Or.inr (by simp [h]))
        · exact Or.inr h

theorem foldl_dictInsert_lookup {α : Type} :
    ∀ (kvs : List (String × α)) (acc : List (String × α)) (k : String),
      lookupKey (kvs.foldl (fun d p => dictInsert d p.1 p.2) acc) k =
        (((kvs.filter (fun p => p.1 = k)).getLast?).map Prod.snd).or
          (lookupKey acc k) := by
  intro kvs
  induction kvs with
  | nil => intro acc k; simp
  | cons p rest ih =>
    intro acc k
    rw [List.foldl_cons, ih, List.filter_cons]
    by_cases hpk : p.1 = k
    · rw [if_pos (decide_eq_true hpk)]
      cases hrest : rest.filter (fun q => decide (q.1 = k)) with
      | nil =>
        have hpk' : p.1 = k := hpk
        simp only [hrest, List.getLast?_singleton, Option.map_none',
          Option.none_or, Option.map_some']
        rw [← hpk', lookupKey_dictInsert_self]
        rfl
      | cons q qs =>
        simp only [hrest, List.getLast?_cons_cons]
        cases hlast : (q :: qs).getLast? with
        | none => simp at hlast
        | some r => simp
    · rw [if_neg (by simpa using hpk)]
      rw [lookupKey_dictInsert_ne (fun h => hpk h.symm)]

theorem filter_key_length_eq_one {α : Type} :
    ∀ {d : List (String × α)} {x : String},
      (d.map Prod.fst).Nodup → x ∈ d.map Prod.fst →
      (d.filter (fun e => e.1 = x)).length = 1 := by
  intro d
  induction d with
  | nil => intro x _ hx; cases hx
  | cons q rest ih =>
    intro x hnd hx
    rw [List.map_cons] at hnd hx
    by_cases hq : q.1 = x
    · rw [List.filter_cons, if_pos (decide_eq_true hq)]
      have hxnot : x ∉ rest.map Prod.fst := hq ▸ (List.nodup_cons.mp hnd).1
      have hnil : rest.filter (fun e => decide (e.1 = x)) = [] :=
        List.filter_eq_nil_iff.mpr (fun e he hpe =>
          hxnot (List.mem_map.mpr ⟨e, he, of_decide_eq_true hpe⟩))
      rw [List.length_cons, hnil]
      rfl
    · rw [List.filter_cons, if_neg (by simpa using hq)]
      apply ih (List.nodup_cons.mp hnd).2
      rcases List.mem_cons.mp hx with rfl | hxr
      · exact absurd rfl hq
      · exact hxr

/-- C10: when two or more classified class rows share the same
first-cell class name, the timetable keeps exactly one entry for that
name, its schedule is the one parsed from the last such row, and
`total_classes` counts the name once (the number of distinct class
names among the classified rows). -/
theorem C10_duplicate_class_rows (grid : List (List String)) (tt : Timetable)
    (name : String) (hok : parseToJson grid = .ok tt)
    (hdup : 2 ≤ ((classRows grid).filter (fun r => classKey r = name)).length) :
    (tt.filter (fun e => e.1 = name)).length = 1 ∧
    lookupKey tt name =
      (((classRows grid).filter (fun r => classKey r = name)).getLast?).map
        (fun r => parseClassSchedule r
          (calculateWeekdayRanges (findWeekdayStartColumns (grid.getD 0 []))
            (grid.getD 0 []).length)) ∧
    (getStatistics tt).total_classes =
      ((classRows grid).map classKey).dedup.length := by
  have htt : tt = ((classRows grid).map (fun r => (classKey r,
      parseClassSchedule r
        (calculateWeekdayRanges (findWeekdayStartColumns (grid.getD 0 []))
          (grid.getD 0 []).length)))).foldl
      (fun d p => dictInsert d p.1 p.2) [] := by
    rw [parseToJson_ok hok, buildTimetable_eq_classRows, List.foldl_map]
  have hfilter : (((classRows grid).map (fun r => (classKey r,
      parseClassSchedule r
        (calculateWeekdayRanges (findWeekdayStartColumns (grid.getD 0 []))
          (grid.getD 0 []).length)))).filter (fun p => p.1 = name)) =
      (((classRows grid).filter (fun r => classKey r = name)).map
        (fun r => (classKey r,
          parseClassSchedule r
            (calculateWeekdayRanges (findWeekdayStartColumns (grid.getD 0 []))
              (grid.getD 0 []).length)))) := by
    rw [List.filter_map]
    rfl
  have hkeys : ((classRows grid).map (fun r => (classKey r,
      parseClassSchedule r
        (calculateWeekdayRanges (findWeekdayStartColumns (grid.getD 0 []))
          (grid.getD 0 []).length)))).map Prod.fst =
      (classRows grid).map classKey := by
    rw [List.map_map]
    rfl
  have hnamemem : name ∈ (classRows grid).map classKey := by
    have hne : ((classRows grid).filter (fun r => classKey r = name)) ≠ [] := by
      intro hnil
      rw [hnil] at hdup
      simp at hdup
    obtain ⟨r, hr⟩ := List.exists_mem_of_ne_nil _ hne
    have hrmem := (List.mem_filter.mp hr).1
    have hrname : classKey r = name := of_decide_eq_true (List.mem_filter.mp hr).2
    exact List.mem_map.mpr ⟨r, hrmem, hrname⟩
  have hndkeys : (tt.map Prod.fst).Nodup := by
    rw [htt]
    exact keys_foldl_dictInsert_nodup _ [] (by simp)
  have hmemkeys : name ∈ tt.map Prod.fst := by
    rw [htt]
    rw [keys_foldl_dictInsert_mem]
    right
    rw [hkeys]
    exact hnamemem
  refine ⟨filter_key_length_eq_one hndkeys hmemkeys, ?_, ?_⟩
  · rw [htt, foldl_dictInsert_lookup]
    simp only [lookupKey, List.find?_nil, Option.map_none', Option.or_none]
    rw [hfilter, List.getLast?_map, Option.map_map]
    rfl
  · show tt.length = ((classRows grid).map classKey).dedup.length
    have h1 : tt.length = (tt.map Prod.fst).length := (List.length_map _ _).symm
    have h2 : (tt.map Prod.fst).length = (tt.map Prod.fst).toFinset.card :=
      (List.toFinset_card_of_nodup hndkeys).symm
    have h3 : (tt.map Prod.fst).toFinset =
        ((classRows grid).map classKey).toFinset := by
      apply Finset.ext
      intro x
      rw [List.mem_toFinset, List.mem_toFinset, htt, keys_foldl_dictInsert_mem]
      rw [hkeys]
      simp
    rw [h1, h2, h3, List.card_toFinset]

/-- Witness for C10 at a concrete grid with a duplicated class name. -/
theorem C10_duplicate_class_rows_witness :
    ((buildTimetable gridC
        (calculateWeekdayRanges (findWeekdayStartColumns (gridC.getD 0 []))
          (gridC.getD 0 []).length)).filter
      (fun e => e.1 = "初三.1班")).length = 1 ∧
    lookupKey (buildTimetable gridC
        (calculateWeekdayRanges (findWeekdayStartColumns (gridC.getD 0 []))
          (gridC.getD 0 []).length)) "初三.1班" =
      (((classRows gridC).filter (fun r => classKey r = "初三.1班")).getLast?).map
        (fun r => parseClassSchedule r
          (calculateWeekdayRanges (findWeekdayStartColumns (gridC.getD 0 []))
            (gridC.getD 0 []).length)) ∧
    (getStatistics (buildTimetable gridC
        (calculateWeekdayRanges (findWeekdayStartColumns (gridC.getD 0 []))
          (gridC.getD 0 []).length))).total_classes =
      ((classRows gridC).map classKey).dedup.length :=
  C10_duplicate_class_rows gridC _ "初三.1班" rfl (by decide)

/-! ### C1: the duplicate-course splitting law -/

theorem splitOnChar_not_mem {sep : Char} :
    ∀ {cs : List Char}, sep ∉ cs → splitOnChar sep cs = [cs] := by
  intro cs
  induction cs with
  | nil => intro _; rfl
  | cons c rest ih =>
    intro h
    have hc : ¬c = sep := fun he => h (he ▸ List.mem_cons_self c rest)
    have hrest : sep ∉ rest := fun hm => h (List.mem_cons_of_mem c hm)
    unfold splitOnChar
    rw [if_neg hc, ih hrest]

theorem splitOnChar_append {sep : Char} :
    ∀ {X : List Char} (T : List Char), sep ∉ X →
      splitOnChar sep (X ++ sep :: T) = X :: splitOnChar sep T := by
  intro X
  induction X with
  | nil =>
    intro T _
    show splitOnChar sep (sep :: T) = [] :: splitOnChar sep T
    conv_lhs => rw [splitOnChar]
    rw [if_pos rfl]
  | cons c rest ih =>
    intro T h
    have hc : ¬c = sep := fun he => h (he ▸ List.mem_cons_self c rest)
    have hrest : sep ∉ rest := fun hm => h (List.mem_cons_of_mem c hm)
    show splitOnChar sep (c :: (rest ++ sep :: T)) = (c :: rest) :: splitOnChar sep T
    conv_lhs => rw [splitOnChar]
    rw [if_neg hc, ih T hrest]

theorem parseCell_of_two_lines {X T : List Char} {p : Nat}
    (hm1 : isInfx banhui (X ++ '\n' :: T) = false)
    (hm2 : isInfx yangguang (X ++ '\n' :: T) = false)
    (hXnl : '\n' ∉ X) (hTnl : '\n' ∉ T)
    (hXtrim : trimChars X = X) (hTtrim : trimChars T = T)
    (hXne : X ≠ [])
    (hm3 : isInfx markerFull T = false) (hm4 : isInfx markerHalf T = false) :
    parseCell (X ++ '\n' :: T) p = some ⟨p, X, some T, false⟩ := by
  have hsplit : splitOnChar '\n' (X ++ '\n' :: T) = [X, T] := by
    rw [splitOnChar_append T hXnl, splitOnChar_not_mem hTnl]
  have ht0 : trimChars ([] : List Char) = [] := rfl
  by_cases hTe : T = []
  · subst hTe
    simp [parseCell, hm1, hm2, hsplit, hXtrim, hXne, ht0]
  · simp [parseCell, hm1, hm2, hsplit, hXtrim, hXne, hTtrim, hTe, hm3, hm4]

theorem detect_self_append {s : List Char} (hs : s ≠ []) (hnl : '\n' ∉ s) :
    detectAndSplitDuplicateCourse (s ++ s) = some (s, s) := by
  have hlen : (s ++ s).length = s.length + s.length := List.length_append _ _
  have hpos : 1 ≤ s.length := List.length_pos.mpr hs
  have hhalves : halvesRep (s ++ s) = some s := by
    unfold halvesRep
    rw [if_pos (by omega)]
    have hdiv : (s ++ s).length / 2 = s.length := by omega
    rw [hdiv, List.take_left]
    rw [if_pos ⟨rfl, hnl⟩]
  unfold detectAndSplitDuplicateCourse
  rw [if_neg (by omega)]
  unfold repMatch
  rw [hhalves]

theorem cell_with_newline_not_empty {X T : List Char} :
    isEmptyCell (X ++ '\n' :: T) = false := by
  have h1 : ¬(X ++ '\n' :: T) = [] := by simp
  have h2 : ¬(X ++ '\n' :: T) = "nan".data := by
    intro he
    have hmem : '\n' ∈ "nan".data :=
      he ▸ List.mem_append.mpr (Or.inr (List.mem_cons_self _ _))
    revert hmem
    decide
  simp [isEmptyCell, h1, h2]

theorem splitCheck_some_next_empty {row : List String} {ds mc q : Nat}
    {cv : List Char} {x : List Char × List Char}
    (h : splitCheck row ds mc q cv = some x) :
    isEmptyCell (cellAt row (ds + (q + 1) - 1)) = true := by
  simp only [splitCheck] at h
  by_cases h1 : q + 1 ≤ PERIODS_PER_DAY
  · rw [if_pos h1] at h
    by_cases h2 : ds + (q + 1) - 1 < mc ∧ ds + (q + 1) - 1 < row.length
    · rw [if_pos h2] at h
      by_cases h3 : isEmptyCell (cellAt row (ds + (q + 1) - 1)) = true
      · exact h3
      · rw [if_neg h3] at h
        cases h
    · rw [if_neg h2] at h
      cases h
  · rw [if_neg h1] at h
    cases h

theorem splitCheck_eq_split {row : List String} {ds mc p : Nat}
    {s T : List Char}
    (hm1 : isInfx banhui ((s ++ s) ++ '\n' :: T) = false)
    (hm2 : isInfx yangguang ((s ++ s) ++ '\n' :: T) = false)
    (hs : s ≠ []) (hsnl : '\n' ∉ s) (hTnl : '\n' ∉ T)
    (hXtrim : trimChars (s ++ s) = s ++ s) (hTtrim : trimChars T = T)
    (hm3 : isInfx markerFull T = false) (hm4 : isInfx markerHalf T = false)
    (hnc1 : ds + p < mc) (hnc2 : ds + p < row.length)
    (hnext : isEmptyCell (cellAt row (ds + p)) = true)
    (hp9 : p + 1 ≤ PERIODS_PER_DAY) :
    splitCheck row ds mc p ((s ++ s) ++ '\n' :: T) = some (s, s) := by
  have hXnl : '\n' ∉ s ++ s := by
    intro hm
    rcases List.mem_append.mp hm with h | h
    · exact hsnl h
    · exact hsnl h
  have hXne : s ++ s ≠ [] := by simp [hs]
  have hidx : ds + (p + 1) - 1 = ds + p := by omega
  have hparse : parseCell ((s ++ s) ++ '\n' :: T) p =
      some ⟨p, s ++ s, some T, false⟩ :=
    parseCell_of_two_lines hm1 hm2 hXnl hTnl hXtrim hTtrim hXne hm3 hm4
  simp only [splitCheck, if_pos hp9, hidx]
  rw [if_pos (And.intro hnc1 hnc2), if_pos hnext, hparse]
  exact detect_self_append hs hsnl

theorem scheduleGo_split_reach {row : List String} {ds mc : Nat}
    {s T : List Char} {p : Nat}
    (hs : s ≠ []) (hsnl : '\n' ∉ s) (hTnl : '\n' ∉ T)
    (hXtrim : trimChars (s ++ s) = s ++ s) (hTtrim : trimChars T = T)
    (hm1 : isInfx banhui ((s ++ s) ++ '\n' :: T) = false)
    (hm2 : isInfx yangguang ((s ++ s) ++ '\n' :: T) = false)
    (hm3 : isInfx markerFull T = false) (hm4 : isInfx markerHalf T = false)
    (hcell : cellAt row (ds + p - 1) = (s ++ s) ++ '\n' :: T)
    (hnc1 : ds + p < mc) (hnc2 : ds + p < row.length)
    (hnext : isEmptyCell (cellAt row (ds + p)) = true)
    (hp9 : p + 1 ≤ PERIODS_PER_DAY) :
    ∀ (f q : Nat) (proc : List Nat), q + f = 10 → 1 ≤ q → q ≤ p →
      (∀ r ∈ proc, r ≤ q) → p ∉ proc →
      ∃ pre post, scheduleGo row ds mc f q proc =
        pre ++ ⟨p, s, some T, false⟩ :: ⟨p + 1, s, some T, false⟩ :: post ∧
        (∀ l ∈ pre, l.period < p) ∧ (∀ l ∈ post, p + 1 < l.period) := by
  have hp9' : p + 1 ≤ 9 := by simpa [PERIODS_PER_DAY] using hp9
  have hXnl : '\n' ∉ s ++ s := by
    intro hm
    rcases List.mem_append.mp hm with h | h
    · exact hsnl h
    · exact hsnl h
  have hXne : s ++ s ≠ [] := by simp [hs]
  intro f
  induction f with
  | zero =>
    intro q proc hq10 hq1 hqp _ _
    exfalso
    omega
  | succ f ih =>
    intro q proc hq10 hq1 hqp hproc hpproc
    by_cases hmem : q ∈ proc
    · have hqlt : q < p := by
        rcases Nat.lt_or_ge q p with h | h
        · exact h
        · exfalso
          have : q = p := by omega
          exact hpproc (this ▸ hmem)
      obtain ⟨pre, post, heq, hpre, hpost⟩ :=
        ih (q + 1) proc (by omega) (by omega) (by omega)
          (fun r hr => by have := hproc r hr; omega) hpproc
      refine ⟨pre, post, ?_, hpre, hpost⟩
      simp only [scheduleGo, if_pos hmem]
      exact heq
    · have hnobreak : ¬(mc ≤ ds + q - 1 ∨ row.length ≤ ds + q - 1) := by omega
      by_cases hqp' : q = p
      · subst hqp'
        have hemp : isEmptyCell (cellAt row (ds + q - 1)) = false := by
          rw [hcell]
          exact cell_with_newline_not_empty
        have hparse : parseCell (cellAt row (ds + q - 1)) q =
            some ⟨q, s ++ s, some T, false⟩ := by
          rw [hcell]
          exact parseCell_of_two_lines hm1 hm2 hXnl hTnl hXtrim hTtrim hXne hm3 hm4
        have hsc : splitCheck row ds mc q (cellAt row (ds + q - 1)) = some (s, s) := by
          rw [hcell]
          exact splitCheck_eq_split hm1 hm2 hs hsnl hTnl hXtrim hTtrim hm3 hm4
            hnc1 hnc2 hnext hp9
        refine ⟨[], scheduleGo row ds mc f (q + 1) ((q + 1) :: q :: proc),
          ?_, by simp, ?_⟩
        · simp only [scheduleGo, if_neg hmem, if_neg hnobreak, hemp, hsc, hparse]
          rfl
        · intro l hl
          have := scheduleGo_period_gt_of_processed (List.mem_cons_self _ _) hl
          omega
      · have hqlt : q < p := by omega
        cases hempq : isEmptyCell (cellAt row (ds + q - 1)) with
        | true =>
          obtain ⟨pre, post, heq, hpre, hpost⟩ :=
            ih (q + 1) proc (by omega) (by omega) (by omega)
              (fun r hr => by have := hproc r hr; omega) hpproc
          refine ⟨pre, post, ?_, hpre, hpost⟩
          simp only [scheduleGo, if_neg hmem, if_neg hnobreak, hempq, if_pos]
          exact heq
        | false =>
          cases hsc : splitCheck row ds mc q (cellAt row (ds + q - 1)) with
          | some pr =>
            have hqe : isEmptyCell (cellAt row (ds + (q + 1) - 1)) = true :=
              splitCheck_some_next_empty hsc
            have hq1p : ¬(q + 1 = p) := by
              intro he
              have hidx : ds + (q + 1) - 1 = ds + p - 1 := by omega
              rw [hidx, hcell, cell_with_newline_not_empty] at hqe
              cases hqe
            cases hpc : parseCell (cellAt row (ds + q - 1)) q with
            | some tmp =>
              obtain ⟨c1, c2⟩ := pr
              obtain ⟨pre, post, heq, hpre, hpost⟩ :=
                ih (q + 1) ((q + 1) :: q :: proc) (by omega) (by omega) (by omega)
                  (fun r hr => by
                    rcases List.mem_cons.mp hr with rfl | hr2
                    · omega
                    · rcases List.mem_cons.mp hr2 with rfl | hr3
                      · omega
                      · have := hproc r hr3; omega)
                  (by
                    intro hcon
                    rcases List.mem_cons.mp hcon with he | hcon2
                    · exact hq1p he.symm
                    · rcases List.mem_cons.mp hcon2 with he | hcon3
                      · omega
                      · exact hpproc hcon3)
              refine ⟨⟨q, c1, tmp.teacher, tmp.is_class_teacher⟩ ::
                ⟨q + 1, c2, tmp.teacher, tmp.is_class_teacher⟩ :: pre, post, ?_, ?_, hpost⟩
              · simp only [scheduleGo, if_neg hmem, if_neg hnobreak, hempq, hsc, hpc]
                rw [heq]
                rfl
              · intro l hl
                rcases List.mem_cons.mp hl with rfl | hl2
                · show q < p
                  omega
                · rcases List.mem_cons.mp hl2 with rfl | hl3
                  · show q + 1 < p
                    omega
                  · exact hpre l hl3
            | none =>
              obtain ⟨pre, post, heq, hpre, hpost⟩ :=
                ih (q + 1) proc (by omega) (by omega) (by omega)
                  (fun r hr => by have := hproc r hr; omega) hpproc
              refine ⟨pre, post, ?_, hpre, hpost⟩
              simp only [scheduleGo, if_neg hmem, if_neg hnobreak, hempq, hsc, hpc]
              exact heq
          | none =>
            cases hpc : parseCell (cellAt row (ds + q - 1)) q with
            | some pd =>
              obtain ⟨pre, post, heq, hpre, hpost⟩ :=
                ih (q + 1) (q :: proc) (by omega) (by omega) (by omega)
                  (fun r hr => by
                    rcases List.mem_cons.mp hr with rfl | hr2
                    · omega
                    · have := hproc r hr2; omega)
                  (by
                    intro hcon
                    rcases List.mem_cons.mp hcon with he | hcon2
                    · omega
                    · exact hpproc hcon2)
              refine ⟨pd :: pre, post, ?_, ?_, hpost⟩
              · simp only [scheduleGo, if_neg hmem, if_neg hnobreak, hempq, hsc, hpc]
                rw [heq]
                simp
              · intro l hl
                rcases List.mem_cons.mp hl with rfl | hl2
                · have := parseCell_period hpc
                  omega
                · exact hpre l hl2
            | none =>
              obtain ⟨pre, post, heq, hpre, hpost⟩ :=
                ih (q + 1) proc (by omega) (by omega) (by omega)
                  (fun r hr => by have := hproc r hr; omega) hpproc
              refine ⟨pre, post, ?_, hpre, hpost⟩
              simp only [scheduleGo, if_neg hmem, if_neg hnobreak, hempq, hsc, hpc]
              exact heq

theorem splitCheck_some_detect {row : List String} {ds mc q : Nat}
    {cv : List Char} {x : List Char × List Char}
    (h : splitCheck row ds mc q cv = some x) :
    ∃ tmp : Lesson, parseCell cv q = some tmp ∧
      detectAndSplitDuplicateCourse tmp.course = some x := by
  simp only [splitCheck] at h
  by_cases h1 : q + 1 ≤ PERIODS_PER_DAY
  · rw [if_pos h1] at h
    by_cases h2 : ds + (q + 1) - 1 < mc ∧ ds + (q + 1) - 1 < row.length
    · rw [if_pos h2] at h
      by_cases h3 : isEmptyCell (cellAt row (ds + (q + 1) - 1)) = true
      · rw [if_pos h3] at h
        cases hpc : parseCell cv q with
        | some tmp =>
          rw [hpc] at h
          exact ⟨tmp, rfl, h⟩
        | none =>
          rw [hpc] at h
          cases h
      · rw [if_neg h3] at h
        cases h
    · rw [if_neg h2] at h
      cases h
  · rw [if_neg h1] at h
    cases h

theorem scheduleGo_no_split_period {row : List String} {ds mc p2 : Nat}
    (hnosplit : ∀ tmp : Lesson,
      parseCell (cellAt row (ds + p2 - 1)) p2 = some tmp →
      detectAndSplitDuplicateCourse tmp.course = none)
    (hnext : isEmptyCell (cellAt row (ds + p2)) = true) :
    ∀ {f q : Nat} {proc : List Nat} {l : Lesson},
      l ∈ scheduleGo row ds mc f q proc → l.period ≠ p2 + 1 := by
  intro f
  induction f with
  | zero =>
    intro q proc l h
    simp [scheduleGo] at h
  | succ f ih =>
    intro q proc l h
    by_cases hmem : q ∈ proc
    · simp only [scheduleGo, if_pos hmem] at h
      exact ih h
    · by_cases hbreak : mc ≤ ds + q - 1 ∨ row.length ≤ ds + q - 1
      · simp only [scheduleGo, if_neg hmem, if_pos hbreak] at h
        cases h
      · by_cases hemp : isEmptyCell (cellAt row (ds + q - 1)) = true
        · simp only [scheduleGo, if_neg hmem, if_neg hbreak, if_pos hemp] at h
          exact ih h
        · have hqne1 : q ≠ p2 + 1 := by
            intro he
            apply hemp
            have hidx : ds + q - 1 = ds + p2 := by omega
            rw [hidx]
            exact hnext
          simp only [scheduleGo, if_neg hmem, if_neg hbreak, if_neg hemp] at h
          cases hsc : splitCheck row ds mc q (cellAt row (ds + q - 1)) with
          | some pr =>
            obtain ⟨c1, c2⟩ := pr
            cases hpc : parseCell (cellAt row (ds + q - 1)) q with
            | some tmp =>
              rw [hsc, hpc] at h
              have hqne : q ≠ p2 := by
                intro he
                subst he
                obtain ⟨tmp2, hp2c, hd2⟩ := splitCheck_some_detect hsc
                rw [hnosplit tmp2 hp2c] at hd2
                cases hd2
              rcases List.mem_cons.mp h with rfl | h2
              · show q ≠ p2 + 1
                exact hqne1
              · rcases List.mem_cons.mp h2 with rfl | h3
                · show q + 1 ≠ p2 + 1
                  omega
                · exact ih h3
            | none =>
              rw [hsc, hpc] at h
              exact ih h
          | none =>
            cases hpc : parseCell (cellAt row (ds + q - 1)) q with
            | some pd =>
              rw [hsc, hpc] at h
              rcases List.mem_cons.mp h with rfl | h2
              · have hper := parseCell_period hpc
                omega
              · exact ih h2
            | none =>
              rw [hsc, hpc] at h
              exact ih h

theorem countP_period_le_one_of_pairwise {p : Nat} :
    ∀ {L : List Lesson}, L.Pairwise (fun a b => a.period < b.period) →
      L.countP (fun l => l.period = p) ≤ 1 := by
  intro L
  induction L with
  | nil => intro _; simp
  | cons a rest ih =>
    intro hpw
    rw [List.countP_cons]
    by_cases ha : a.period = p
    · have hrest0 : rest.countP (fun l => decide (l.period = p)) = 0 := by
        rw [List.countP_eq_zero]
        intro l hl
        have hlt := (List.pairwise_cons.mp hpw).1 l hl
        simp only [decide_eq_true_eq]
        omega
      simp [hrest0, ha]
    · simp only [decide_eq_false ha]
      simpa using ih (List.pairwise_cons.mp hpw).2

/-- C1 counterexample: the cell text `英语英语\n班会` has the form
`X + "\n" + T` with `X = s+s` (`s` = `英语`) and an empty next-period
cell, yet because the whole cell contains the activity marker `班会`
the parser emits the single activity lesson and no split happens, so
the claim's unconditional splitting law fails. -/
theorem C1_counterexample :
    ("英语英语\n班会" : String).data = "英语英语".data ++ '\n' :: "班会".data ∧
    "英语英语".data = "英语".data ++ "英语".data ∧
    isEmptyCell (cellAt ["初三.1班", "英语英语\n班会", ""] 2) = true ∧
    parseWeekday ["初三.1班", "英语英语\n班会", ""] [("星期一", (1, 3))] "星期一" =
      [⟨1, "班会".data, none, false⟩] := by decide

/-- C1, amended: for a class row, weekday and period `p`, if the cell
assigned to period `p` has trimmed text `X + "\n" + T` where
`X = s+s` (`s` nonempty), `X` and `T` are single trimmed lines, the
cell contains neither special-activity marker and `T` carries no
class-teacher marker, and the cell assigned to period `p+1` is still
within the weekday's column range and empty, then the weekday's
parsed lessons contain, consecutively, `{period p, course s, teacher
T}` and `{period p+1, course s, teacher T}` with the same
teacher/class-teacher fields, lessons before them having smaller
periods and lessons after them larger ones; and a cell whose parsed
course text is not an exact self-repetition never splits: even with an
empty next-period cell (the only situation in which a split can
occur), at most one lesson is produced at its period and no lesson is
produced at period `p+1`. -/
theorem C1_split_law (row : List String) (ranges : List (String × (Nat × Nat)))
    (w : String) (startCol endCol : Nat) (s T : List Char) (p : Nat)
    (hrange : lookupKey ranges w = some (startCol, endCol))
    (hp1 : 1 ≤ p)
    (hs : s ≠ []) (hsnl : '\n' ∉ s) (hTnl : '\n' ∉ T)
    (hXtrim : trimChars (s ++ s) = s ++ s) (hTtrim : trimChars T = T)
    (hm1 : isInfx banhui ((s ++ s) ++ '\n' :: T) = false)
    (hm2 : isInfx yangguang ((s ++ s) ++ '\n' :: T) = false)
    (hm3 : isInfx markerFull T = false) (hm4 : isInfx markerHalf T = false)
    (hcell : cellAt row (startCol + p - 1) = (s ++ s) ++ '\n' :: T)
    (hnc : startCol + p < min (min (startCol + PERIODS_PER_DAY) endCol) row.length)
    (hnext : isEmptyCell (cellAt row (startCol + p)) = true) :
    (∃ pre post, parseWeekday row ranges w =
        pre ++ ⟨p, s, some T, false⟩ :: ⟨p + 1, s, some T, false⟩ :: post ∧
        (∀ l ∈ pre, l.period < p) ∧ (∀ l ∈ post, p + 1 < l.period)) ∧
    (∀ (row2 : List String) (ranges2 : List (String × (Nat × Nat)))
       (w2 : String) (p2 startCol2 endCol2 : Nat),
       lookupKey ranges2 w2 = some (startCol2, endCol2) →
       (∀ tmp : Lesson,
          parseCell (cellAt row2 (startCol2 + p2 - 1)) p2 = some tmp →
          detectAndSplitDuplicateCourse tmp.course = none) →
       isEmptyCell (cellAt row2 (startCol2 + p2)) = true →
       (parseWeekday row2 ranges2 w2).countP (fun l => l.period = p2) ≤ 1 ∧
       (parseWeekday row2 ranges2 w2).countP (fun l => l.period = p2 + 1) = 0) := by
  constructor
  · have hp9 : p + 1 ≤ PERIODS_PER_DAY := by
      have h1 : startCol + p < startCol + PERIODS_PER_DAY :=
        lt_of_lt_of_le hnc (le_trans (min_le_left _ _) (min_le_left _ _))
      simp only [PERIODS_PER_DAY] at h1 ⊢
      omega
    have hnc2 : startCol + p < row.length := lt_of_lt_of_le hnc (min_le_right _ _)
    unfold parseWeekday
    rw [hrange]
    exact scheduleGo_split_reach hs hsnl hTnl hXtrim hTtrim hm1 hm2 hm3 hm4
      hcell hnc hnc2 hnext hp9 PERIODS_PER_DAY 1 [] (by decide) (by omega) hp1
      (by simp) (by simp)
  · intro row2 ranges2 w2 p2 startCol2 endCol2 hrange2 hnosplit hnext2
    unfold parseWeekday
    rw [hrange2]
    constructor
    · exact countP_period_le_one_of_pairwise scheduleGo_pairwise
    · rw [List.countP_eq_zero]
      intro l hl
      have hne := scheduleGo_no_split_period hnosplit hnext2 hl
      simp only [decide_eq_true_eq]
      exact hne

/-- Witness for C1: a concrete splitting cell and a concrete
non-repeated cell. -/
theorem C1_split_law_witness :
    (∃ pre post,
        parseWeekday ["初三.1班", "英语英语\n陈小华", "", "数学\n王"]
          [("星期一", (1, 4))] "星期一" =
          pre ++ (⟨1, "英语".data, some "陈小华".data, false⟩ : Lesson) ::
            (⟨1 + 1, "英语".data, some "陈小华".data, false⟩ : Lesson) :: post ∧
        (∀ l ∈ pre, l.period < 1) ∧ (∀ l ∈ post, 1 + 1 < l.period)) ∧
    ((parseWeekday ["初三.1班", "数学\n王", ""] [("星期一", (1, 3))]
        "星期一").countP (fun l => l.period = 1) ≤ 1 ∧
     (parseWeekday ["初三.1班", "数学\n王", ""] [("星期一", (1, 3))]
        "星期一").countP (fun l => l.period = 1 + 1) = 0) :=
  ⟨(C1_split_law ["初三.1班", "英语英语\n陈小华", "", "数学\n王"]
      [("星期一", (1, 4))] "星期一" 1 4 "英语".data "陈小华".data 1
      (by decide) (by decide) (by decide) (by decide) (by decide) (by decide)
      (by decide) (by decide) (by decide) (by decide) (by decide) (by decide)
      (by decide) (by decide)).1,
   (C1_split_law ["初三.1班", "英语英语\n陈小华", "", "数学\n王"]
      [("星期一", (1, 4))] "星期一" 1 4 "英语".data "陈小华".data 1
      (by decide) (by decide) (by decide) (by decide) (by decide) (by decide)
      (by decide) (by decide) (by decide) (by decide) (by decide) (by decide)
      (by decide) (by decide)).2
     ["初三.1班", "数学\n王", ""] [("星期一", (1, 3))] "星期一" 1 1 3
     (by decide)
     (fun tmp h => by injection h with h2; subst h2; decide)
     (by decide)⟩

end Engine
